import Mathlib

/-!
Verification of the run-execution / hyperparameter-sweep engine and the
artifact targeting layer of the repository (mlrun excerpt).

The Python dictionaries that the source manipulates are shallowly embedded:
insertion-ordered dicts become association lists (`List (String × β)`) with
Python's `d[k] = v` semantics (`dictSet`: update in place if the key exists,
else append) and `k in d` / `d.get(k)` (`dictGet`).  Scalar hyperparameter
and output values are opaque: definitions are polymorphic in `α` (the spec's
float literals are rendered as exact rationals where a concrete instance is
evaluated, since the code never computes with them).
-/

/-- Python `d[k] = v` on an insertion-ordered dict: overwrite in place if the
key is present, otherwise append at the end. -/
def dictSet (d : List (String × β)) (k : String) (v : β) : List (String × β) :=
  match d with
  | [] => [(k, v)]
  | (k', v') :: rest => if k' = k then (k, v) :: rest else (k', v') :: dictSet rest k v

/-- Python `d.get(k)`: value of the first (hence unique, for genuine dicts)
binding of `k`. -/
def dictGet (d : List (String × β)) (k : String) : Option β :=
  match d with
  | [] => none
  | (k', v') :: rest => if k' = k then some v' else dictGet rest k

/-- Python `l * n` on a list: `n` concatenated copies of `l`. -/
def pyTile (l : List α) (n : Nat) : List α :=
  (List.replicate n l).flatten

/-- One step of the `grid_to_list` loop body (`src/mlrun/runtimes/base.py`,
lines 37-44): every already-expanded column is tiled `len(pv)` times, the new
parameter's values are each repeated `lastlen` times, and `lastlen` grows by
the factor `len(pv)`. -/
def gridStep (st : List (String × List α) × Nat) (p : String × List α) :
    List (String × List α) × Nat :=
  let arr := st.1.map (fun q => (q.1, pyTile q.2 p.2.length))
  let expanded := p.2.flatMap (fun v => List.replicate st.2 v)
  (dictSet arr p.1 expanded, st.2 * p.2.length)

/-- `grid_to_list` (`src/mlrun/runtimes/base.py`, lines 34-46): expand a
hyperparameter grid (dict of name -> candidate list) into a dict of
name -> column of length `N = product of list lengths`. -/
def grid_to_list (params : List (String × List α)) : List (String × List α) :=
  (params.foldl gridStep ([], 1)).1

/-- Product of the lengths of the candidate lists of a grid. -/
def prodLens (params : List (String × List α)) : Nat :=
  (params.map (fun p => p.2.length)).prod

/-- Closed form of the expanded grid: the column of the parameter declared
after `pre`-many total combinations holds each of its values repeated `pre`
times, the whole block tiled once per combination of the later parameters. -/
def gridCols (pre : Nat) : List (String × List α) → List (String × List α)
  | [] => []
  | (k, v) :: rest =>
      (k, pyTile (v.flatMap (fun x => List.replicate pre x)) (prodLens rest)) ::
        gridCols (pre * v.length) rest

/-- A cell of the pandas iteration table: a column label or `state` value
(string), a parameter/output value, an iteration index, or a missing value
(`None`/`NaN`). -/
inductive Cell (α : Type) where
  | str (s : String)
  | val (a : α)
  | num (n : Nat)
  | null
deriving DecidableEq

/-- `metadata` dict of a run struct (the fields this core reads/writes). -/
structure RMeta where
  uid : String := ""
  project : String := ""
  iteration : Option Nat := none
deriving DecidableEq

/-- `spec` dict of a run struct (the fields this core reads/writes). -/
structure RSpec (α : Type) where
  parameters : List (String × α) := []
  hyperparams : List (String × List α) := []
  output_path : String := ""
deriving DecidableEq

/-- `status` dict of a run struct.  A run dict that carries no `status` key is
modelled by the empty status (all fields absent): no claim distinguishes the
two, and the code under proof only ever reads `status` fields through `.get`
or writes them. -/
structure RStatus (α : Type) where
  state : Option String := none
  outputs : List (String × α) := []
  start_time : Option String := none
  last_update : Option String := none
  iterations : Option (List (List (Cell α))) := none
deriving DecidableEq

/-- A run struct (`metadata` / `spec` / `status`), the dict-of-dicts that
`task_gen`, `_run_many`, `_post_run` and `results_to_iter_status` manipulate. -/
structure RunStruct (α : Type) where
  metadata : RMeta := {}
  spec : RSpec α := {}
  status : RStatus α := {}
deriving DecidableEq

instance : Inhabited (RunStruct α) := ⟨{}⟩

/-- The inner loop of `task_gen` writing one grid assignment into a clone:
`newstruct['spec']['parameters'][key] = values[i]` for every grid entry. -/
def applyPoint [Inhabited α] (base : List (String × α))
    (params : List (String × List α)) (i : Nat) : List (String × α) :=
  params.foldl (fun ps kv => dictSet ps kv.1 (kv.2.getD i default)) base

/-- `task_gen` (`src/mlrun/runtimes/base.py`, lines 49-60): one deep copy of
the base struct per expanded grid position `i`, with the `i`-th assignment
written into `spec.parameters` and `metadata.iteration = i + 1`.  `deepcopy`
is the identity on these pure values; independence of the clones is value
semantics.  (On an empty grid Python raises `StopIteration`; the claims only
cover non-empty grids, where `max` is the first column's length.) -/
def task_gen [Inhabited α] (struct : RunStruct α)
    (hyperparams : List (String × List α)) : List (RunStruct α) :=
  let params := grid_to_list hyperparams
  let m := match params with
    | [] => 0
    | p :: _ => p.2.length
  (List.range m).map (fun i =>
    { struct with
      spec := { struct.spec with parameters := applyPoint struct.spec.parameters params i },
      metadata := { struct.metadata with iteration := some (i + 1) } })

/-- External side-effect log of one `MLRuntime`: how many `datetime.now()`
readings were taken so far (the wall clock is an arbitrary function
`τ : Nat → String` over that counter) and the structs persisted to the run
database by `_save_run`, in order. -/
structure SysState (α : Type) where
  time : Nat := 0
  saves : List (RunStruct α) := []
deriving DecidableEq

/-- `_save_run` (`src/mlrun/runtimes/base.py`, lines 104-111): persist the
struct to the run database when one is configured (`self.rundb` truthy). -/
def save_run (rundb : Bool) (s : RunStruct α) (st : SysState α) : SysState α :=
  if rundb then { st with saves := st.saves ++ [s] } else st

/-- The mutation `_post_run` applies to a non-falsy result struct: set
`status.state = 'completed'` unless it already reads `'error'`
(`resp['status'].get('state', '') != 'error'`), and stamp
`status.last_update` with the current timestamp. -/
def finalize (now : String) (s : RunStruct α) : RunStruct α :=
  { s with status := { s.status with
      state := if s.status.state.getD "" ≠ "error" then some "completed" else s.status.state,
      last_update := some now } }

/-- `_post_run` (`src/mlrun/runtimes/base.py`, lines 137-151): a falsy result
is returned as `{}` (modelled `none`) untouched; otherwise the struct is
finalized with the current clock reading and persisted via `_save_run`.
(A serialized string result is `json.loads`-parsed first and the optional
KFP side file is written; neither changes the struct or the run database, so
the model starts from the parsed struct.) -/
def post_run (τ : Nat → String) (rundb : Bool) (resp : Option (RunStruct α))
    (st : SysState α) : Option (RunStruct α) × SysState α :=
  match resp with
  | none => (none, st)
  | some s =>
      let s1 := finalize (τ st.time) s
      (some s1, save_run rundb s1 { st with time := st.time + 1 })

/-- The record `{'param': parameters, 'output': outputs, 'state': state,
'iter': iteration}` built by `results_to_iter_status` for one task, already
flattened the way `pd.io.json.json_normalize` flattens nested dicts
(`param.<name>` / `output.<name>` columns, in dict order). -/
def stateCellOf (t : RunStruct α) : Cell α :=
  match t.status.state with
  | some s => Cell.str s
  | none => Cell.null

def iterCellOf (t : RunStruct α) : Cell α :=
  match t.metadata.iteration with
  | some n => Cell.num n
  | none => Cell.null

def flatRow (t : RunStruct α) : List (String × Cell α) :=
  t.spec.parameters.map (fun kv => ("param." ++ kv.1, Cell.val kv.2)) ++
    t.status.outputs.map (fun kv => ("output." ++ kv.1, Cell.val kv.2)) ++
    [("state", stateCellOf t), ("iter", iterCellOf t)]

/-- Dataframe columns: union of the flattened keys in order of first
appearance across the records. -/
def colsOf (rows : List (List (String × Cell α))) : List String :=
  rows.foldl (fun acc row =>
    row.foldl (fun acc kv => if kv.1 ∈ acc then acc else acc ++ [kv.1]) acc) []

/-- Sort key of a record for `sort_values('iter')`: its `iter` entry when it
is an index, `none` (`NaN`, sorted last) otherwise. -/
def rowIterKey (row : List (String × Cell α)) : Option Nat :=
  match dictGet row "iter" with
  | some (Cell.num n) => some n
  | _ => none

/-- Ascending order on `iter` sort keys with missing values last. -/
def optIterLeB : Option Nat → Option Nat → Bool
  | some x, some y => x ≤ y
  | some _, none => true
  | none, some _ => false
  | none, none => true

/-- Row order used by `sort_values('iter')` (ascending, `NaN` last). -/
def rowLe (r1 r2 : List (String × Cell α)) : Prop :=
  optIterLeB (rowIterKey r1) (rowIterKey r2) = true

instance : DecidableRel (α := List (String × Cell α)) rowLe :=
  fun r1 r2 => instDecidableEqBool (optIterLeB (rowIterKey r1) (rowIterKey r2)) true

instance : IsTotal (List (String × Cell α)) rowLe :=
  ⟨fun r1 r2 => by
    unfold rowLe
    cases rowIterKey r1 with
    | none => cases rowIterKey r2 with
      | none => simp [optIterLeB]
      | some y => simp [optIterLeB]
    | some x => cases rowIterKey r2 with
      | none => simp [optIterLeB]
      | some y => simpa [optIterLeB] using Nat.le_total x y⟩

instance : IsTrans (List (String × Cell α)) rowLe :=
  ⟨fun r1 r2 r3 => by
    unfold rowLe
    cases rowIterKey r1 with
    | none => cases rowIterKey r2 with
      | none => cases rowIterKey r3 <;> simp [optIterLeB]
      | some y => cases rowIterKey r3 <;> simp [optIterLeB]
    | some x => cases rowIterKey r2 with
      | none => cases rowIterKey r3 <;> simp [optIterLeB]
      | some y => cases rowIterKey r3 with
        | none => simp [optIterLeB]
        | some z => simpa [optIterLeB] using Nat.le_trans⟩

/-- The pandas part of `results_to_iter_status`
(`src/mlrun/runtimes/base.py`, lines 228-240): flatten each task result into
a record, take the union of the columns, sort the records ascending by the
`iter` column (pandas' unstable quicksort is modelled by a sort; no claim
depends on the order of rows with equal `iter`), and emit the header row
followed by the data rows, missing fields rendered as `NaN`/null cells.
On an EMPTY result list the source raises instead (`json_normalize([])` has
no `iter` column, so `sort_values('iter')` throws a `KeyError`) while this
model returns a header-only table; every theorem about the table therefore
requires at least one result (non-empty results / generated tasks). -/
def iterTable (results : List (RunStruct α)) : List (List (Cell α)) :=
  let rows := results.map flatRow
  let cols := colsOf rows
  let sorted := List.insertionSort rowLe rows
  cols.map Cell.str :: sorted.map (fun r => cols.map (fun c => (dictGet r c).getD Cell.null))

/-- `results_to_iter_status`: write the iteration table into
`base_struct['status']['iterations']`. -/
def results_to_iter_status (base : RunStruct α) (results : List (RunStruct α)) :
    RunStruct α :=
  { base with status := { base.status with iterations := some (iterTable results) } }

/-- Column of the produced table under the header label `c`: the cells of the
data rows at the position where the header row holds `c`. -/
def tableCol [DecidableEq α] (t : List (List (Cell α))) (c : String) : List (Cell α) :=
  match t with
  | [] => []
  | h :: rows => rows.map (fun r => r.getD (h.indexOf (Cell.str c)) Cell.null)

/-- `all(results)`: `some` of the list of structs when no entry is falsy. -/
def seqResults : List (Option (RunStruct α)) → Option (List (RunStruct α))
  | [] => some []
  | none :: _ => none
  | some r :: rest => (seqResults rest).map (fun rs => r :: rs)

/-- One pass of the `_run_many` loop body: run the task through the abstract
`_run` (`exec`) and `_post_run`, appending the finalized result. -/
def sweepStep (τ : Nat → String) (rundb : Bool)
    (exec : RunStruct α → Option (RunStruct α))
    (acc : List (Option (RunStruct α)) × SysState α) (task : RunStruct α) :
    List (Option (RunStruct α)) × SysState α :=
  let pr := post_run τ rundb (exec task) acc.2
  (acc.1 ++ [pr.1], pr.2)

/-- `_run_many` (`src/mlrun/runtimes/base.py`, lines 124-135): read the start
time, run every generated task through the abstract `_run` (the injected
`exec`) followed by `_post_run`, collecting the finalized results in
generation order, then reset the top-level status to `{'start_time': ...}`,
record the hyperparams, and aggregate through `results_to_iter_status`.
A falsy child result (modelled `none`) would make `results_to_iter_status`
raise a `KeyError`; the model returns `none` for that crash. -/
def run_many [Inhabited α] (τ : Nat → String) (rundb : Bool)
    (exec : RunStruct α → Option (RunStruct α)) (struct : RunStruct α)
    (hyperparams : List (String × List α)) (st : SysState α) :
    Option (RunStruct α) × SysState α :=
  let start := τ st.time
  let st0 : SysState α := { st with time := st.time + 1 }
  let folded : List (Option (RunStruct α)) × SysState α :=
    (task_gen struct hyperparams).foldl (sweepStep τ rundb exec) ([], st0)
  match seqResults folded.1 with
  | none => (none, folded.2)
  | some rs =>
      let s1 := { struct with
        status := { state := none, outputs := [], start_time := some start,
                    last_update := none, iterations := none },
        spec := { struct.spec with hyperparams := hyperparams } }
      (some (results_to_iter_status s1 rs), folded.2)

/-- `MLRuntime.run` (`src/mlrun/runtimes/base.py`, lines 113-119): with a
truthy hyperparams dict run the sweep, otherwise run the single task; either
way the response goes through `_post_run` once more. -/
def runtime_run [Inhabited α] (τ : Nat → String) (rundb : Bool)
    (exec : RunStruct α → Option (RunStruct α)) (struct : RunStruct α)
    (hyperparams : List (String × List α)) (st : SysState α) :
    Option (RunStruct α) × SysState α :=
  match hyperparams with
  | [] => post_run τ rundb (exec struct) st
  | _ :: _ =>
      let r := run_many τ rundb exec struct hyperparams st
      post_run τ rundb r.1 r.2

/-- Python `s.startswith(p)`, computed on the underlying character lists. -/
def strStartsWith (s p : String) : Bool := p.data.isPrefixOf s.data

/-- Python `s.endswith(p)`, computed on the underlying character lists. -/
def strEndsWith (s p : String) : Bool := p.data.isSuffixOf s.data

/-- `uxjoin`.  Modelled from the spec: the helper lives in `mlrun/utils`,
which is outside the provided sources; the spec describes it as "a default
computed by joining `output_path` and `key`", with scenario 2 fixing
`uxjoin "/out" "model" = "/out/model"`.  An empty base yields the key alone
and a trailing slash is not doubled. -/
def uxjoin (base path : String) : String :=
  if base = "" then path
  else if strEndsWith base "/" then base ++ path
  else base ++ "/" ++ path

/-- In-memory artifact record (`Artifact` in `src/mlrun/artifacts.py`): the
fields `log_artifact` reads or writes.  `body` is `none` when the artifact
carries no in-memory payload (Python `None`; an empty-string body, also falsy
in Python, is not distinguished by any claim). -/
structure ArtifactR (α : Type) where
  key : String
  tag : String := ""
  target_path : String := ""
  src_path : String := ""
  body : Option α := none
  viewer : String := ""
  sources : List String := []
  execution : Option String := none
deriving DecidableEq

/-- Store collaborator (`StoreManager` plus the resolved store handle):
`resolve` models `get_or_create_store` returning the in-store path, `put` and
`upload` the two write primitives, `isfile` models `os.path.isfile`.  Each
fallible call returns `Except Unit _`, `.error ()` standing for a raised
`StorageError`. -/
structure DataStores (α : Type) where
  resolve : String → Except Unit String
  put : String → α → Except Unit Unit
  upload : String → String → Except Unit Unit
  isfile : String → Bool

/-- Run-database collaborator: `store_artifact`, `.error ()` standing for a
raised `PersistenceError`. -/
structure ArtifactDb (α : Type) where
  store_artifact : String → ArtifactR α → String → String → Except Unit Unit

/-- The owning execution (`self._execution`): its tag, project, declared
input objects and identity metadata (`get_meta()`, opaque). -/
structure ExecInfo where
  tag : String := ""
  project : String := ""
  input_objects : List String := []
  meta : String := ""

/-- Mutable state of an `ArtifactManager`: the default output directory, the
per-key path overrides loaded from the run's `output_artifacts` declarations
(a declared override may itself be absent/`None`), and the in-memory registry
`output_artifacts`. -/
structure AMState (α : Type) where
  out_path : String := ""
  outputs_spec : List (String × Option String) := []
  output_artifacts : List (String × ArtifactR α) := []

/-- Errors `log_artifact` can raise: `StorageError` from the store layer,
`PersistenceError` from the run database. -/
inductive LogErr where
  | storage
  | persistence
deriving DecidableEq

/-- The key under which an item is logged: the bare key itself, or the
artifact's `key` field. -/
def logKey (item : String ⊕ ArtifactR α) : String :=
  match item with
  | Sum.inl k => k
  | Sum.inr a => a.key

/-- Input normalization of `log_artifact`: a bare key becomes a fresh
`Artifact(key, body, src_path=src_path, tag=tag, viewer=viewer)`; an existing
artifact keeps its fields except that non-empty `src_path`/`viewer` arguments
override them. -/
def normItem (item : String ⊕ ArtifactR α) (body : Option α)
    (src_path tag viewer : String) : ArtifactR α :=
  match item with
  | Sum.inl k => { key := k, body := body, src_path := src_path, tag := tag, viewer := viewer }
  | Sum.inr a => { a with
      src_path := if src_path ≠ "" then src_path else a.src_path,
      viewer := if viewer ≠ "" then viewer else a.viewer }

/-- The caller-supplied/artifact-carried target path: the `target_path`
argument, or (for an artifact item) its own `target_path` field when the
argument is empty. -/
def argTarget (item : String ⊕ ArtifactR α) (target_path : String) : String :=
  match item with
  | Sum.inl _ => target_path
  | Sum.inr a => if target_path ≠ "" then target_path else a.target_path

/-- Target-path resolution of `log_artifact` (`src/mlrun/artifacts.py`,
lines 63-68): a truthy override registered in `outputs_spec` for the key wins,
else the argument/carried path, else `uxjoin(out_path, key)`. -/
def resolvedTarget (mgr : AMState α) (item : String ⊕ ArtifactR α)
    (target_path : String) : String :=
  let tgt0 := argTarget item target_path
  let tgt1 := match dictGet mgr.outputs_spec (logKey item) with
    | some (some p) => if p ≠ "" then p else tgt0
    | some none => tgt0
    | none => tgt0
  if tgt1 = "" then uxjoin mgr.out_path (logKey item) else tgt1

/-- Tag resolution of `log_artifact`: explicit argument, else the artifact's
own tag, else the owning execution's tag. -/
def resolvedTag (execinfo : ExecInfo) (item : String ⊕ ArtifactR α)
    (body : Option α) (src_path tag viewer : String) : String :=
  if tag ≠ "" then tag
  else if (normItem item body src_path tag viewer).tag ≠ "" then
    (normItem item body src_path tag viewer).tag
  else execinfo.tag

/-- The artifact as it is inserted into the registry: normalized input with
the resolved target path written back and the resolved tag. -/
def resolvedItem (mgr : AMState α) (execinfo : ExecInfo)
    (item : String ⊕ ArtifactR α) (body : Option α)
    (target_path src_path tag viewer : String) : ArtifactR α :=
  { normItem item body src_path tag viewer with
    target_path := resolvedTarget mgr item target_path,
    tag := resolvedTag execinfo item body src_path tag viewer }

/-- `ArtifactManager.log_artifact` (`src/mlrun/artifacts.py`, lines 51-87).
The `item` argument is a bare key or an existing artifact; non-empty
`target_path`/`src_path`/`viewer` arguments override the artifact's fields.
Target-path resolution: a truthy `outputs_spec` override for the key wins,
else the argument/carried path, else `uxjoin(out_path, key)`; the tag falls
back from the argument to the artifact's tag to the execution's tag.  The
resolved artifact is written into the registry before the store upload and
the database write; Python mutates the same object when defaulting `sources`
and stamping `execution` in the database branch, so the registry's entry
carries those fields too.  The returned state is the manager after the call,
paired with the outcome (`.error` = the exception the call raises). -/
def log_artifact (mgr : AMState α) (stores : DataStores α) (db : Option (ArtifactDb α))
    (execinfo : ExecInfo) (item : String ⊕ ArtifactR α) (body : Option α)
    (target_path src_path tag viewer : String) (upload : Bool) :
    AMState α × Except LogErr Unit :=
  let key := logKey item
  let tgt2 := resolvedTarget mgr item target_path
  let item1 := resolvedItem mgr execinfo item body target_path src_path tag viewer
  let mgr1 := { mgr with output_artifacts := dictSet mgr.output_artifacts key item1 }
  let upRes : Except LogErr Unit :=
    if upload then
      match stores.resolve tgt2 with
      | Except.error _ => Except.error LogErr.storage
      | Except.ok ipath =>
          match body.orElse (fun _ => item1.body) with
          | some b =>
              match stores.put ipath b with
              | Except.error _ => Except.error LogErr.storage
              | Except.ok _ => Except.ok ()
          | none =>
              let sp := if src_path ≠ "" then src_path else key
              if stores.isfile sp then
                match stores.upload ipath sp with
                | Except.error _ => Except.error LogErr.storage
                | Except.ok _ => Except.ok ()
              else Except.ok ()
    else Except.ok ()
  match upRes with
  | Except.error e => (mgr1, Except.error e)
  | Except.ok _ =>
      match db with
      | none => (mgr1, Except.ok ())
      | some dbops =>
          let item2 := { item1 with
            sources := if item1.sources = [] then execinfo.input_objects else item1.sources,
            execution := some execinfo.meta }
          let mgr2 := { mgr1 with output_artifacts := dictSet mgr1.output_artifacts key item2 }
          match dbops.store_artifact key item2 item2.tag execinfo.project with
          | Except.error _ => (mgr2, Except.error LogErr.persistence)
          | Except.ok _ => (mgr2, Except.ok ())

/-- Worker for Python `str.replace`: scan left to right, replacing every
non-overlapping occurrence of `pat`; the fuel (initially the input length)
only bounds the recursion. -/
def replaceFuel (pat rep : List Char) : Nat → List Char → List Char
  | _, [] => []
  | 0, l => l
  | fuel + 1, c :: rest =>
      if pat.isPrefixOf (c :: rest) then
        rep ++ replaceFuel pat rep fuel (List.drop pat.length (c :: rest))
      else
        c :: replaceFuel pat rep fuel rest

/-- Python `s.replace(pat, rep)`: every occurrence of `pat` in `s` is
replaced, not only a leading one.  (The degenerate empty pattern, which
Python treats as matching between every pair of characters, never occurs in
the code under proof and is mapped to the identity.) -/
def pyReplace (s pat rep : String) : String :=
  if pat = "" then s
  else String.mk (replaceFuel pat.data rep.data s.data.length s.data)

/-- One declared output artifact as `get_kfp_outputs` consumes it: the dict
fields the function reads (`key`, `target_path`, optional `inline` body,
`viewer`, optional `header`). -/
structure KfpArtifact where
  key : String := ""
  target_path : String := ""
  inline : Option String := none
  viewer : String := ""
  header : Option (List String) := none
deriving DecidableEq

/-- A block of the KFP UI-metadata document. -/
inductive KfpBlock where
  | webApp (source : String)
  | table (format : String) (header : List String) (source : String)
deriving DecidableEq

/-- The effective target of one artifact in `get_kfp_outputs`: the `inline`
payload when present overrides `target_path`, and a target starting with
`v3io:///` goes through `str.replace('v3io:///', 'http://v3io-webapi:8081/')`
(which rewrites every occurrence).  The debug dump to `/tmp/<key>` is a file
side effect swallowed by `try/except` and does not influence the result. -/
def kfpTarget (o : KfpArtifact) : String :=
  let target := o.target_path
  let target := o.inline.getD target
  if strStartsWith target "v3io:///" then
    pyReplace target "v3io:///" "http://v3io-webapi:8081/"
  else target

/-- The blocks one artifact contributes in `get_kfp_outputs`
(`src/mlrun/runtimes/base.py`, lines 195-225): viewers `web-app` and `chart`
give a `web-app` block, viewer `table` gives a `table` block when the header
is truthy and the effective target ends in `.csv`, anything else gives
nothing. -/
def kfpBlocks (o : KfpArtifact) : List KfpBlock :=
  let target := kfpTarget o
  if o.viewer = "web-app" ∨ o.viewer = "chart" then
    [KfpBlock.webApp target]
  else if o.viewer = "table" then
    match o.header with
    | some h => if h ≠ [] ∧ strEndsWith target ".csv" then
        [KfpBlock.table "csv" h target] else []
    | none => []
  else []

/-- `get_kfp_outputs`: concatenate the per-artifact blocks in order. -/
def get_kfp_outputs (artifacts : List KfpArtifact) : List KfpBlock :=
  artifacts.foldl (fun outputs o => outputs ++ kfpBlocks o) []

theorem pyTile_zero (l : List α) : pyTile l 0 = [] := rfl

theorem pyTile_one (l : List α) : pyTile l 1 = l := by
  simp [pyTile]

theorem pyTile_succ (l : List α) (n : Nat) : pyTile l (n + 1) = l ++ pyTile l n := by
  simp [pyTile, List.replicate_succ]

theorem pyTile_add (l : List α) (m n : Nat) :
    pyTile l (m + n) = pyTile l m ++ pyTile l n := by
  unfold pyTile
  rw [List.replicate_add, List.flatten_append]

theorem pyTile_length (l : List α) (n : Nat) : (pyTile l n).length = n * l.length := by
  induction n with
  | zero => simp [pyTile]
  | succ n ih => rw [pyTile_succ, List.length_append, ih, Nat.succ_mul, Nat.add_comm]

theorem pyTile_pyTile (l : List α) (a b : Nat) :
    pyTile (pyTile l a) b = pyTile l (a * b) := by
  induction b with
  | zero => simp [pyTile]
  | succ b ih =>
      rw [pyTile_succ, ih, Nat.mul_succ, Nat.add_comm, pyTile_add]

theorem dictSet_append (d : List (String × β)) (k : String) (v : β)
    (h : k ∉ d.map Prod.fst) : dictSet d k v = d ++ [(k, v)] := by
  induction d with
  | nil => rfl
  | cons p rest ih =>
      simp only [List.map_cons, List.mem_cons, not_or] at h
      obtain ⟨k', v'⟩ := p
      simp only [dictSet]
      rw [if_neg (fun hk => h.1 hk.symm), ih h.2, List.cons_append]

theorem dictGet_dictSet_self (d : List (String × β)) (k : String) (v : β) :
    dictGet (dictSet d k v) k = some v := by
  induction d with
  | nil => simp [dictSet, dictGet]
  | cons p rest ih =>
      obtain ⟨k', v'⟩ := p
      by_cases h : k' = k
      · simp [dictSet, h, dictGet]
      · simp [dictSet, h, dictGet, ih]

theorem dictGet_dictSet_ne (d : List (String × β)) (k k' : String) (v : β)
    (h : k' ≠ k) : dictGet (dictSet d k v) k' = dictGet d k' := by
  induction d with
  | nil => simp [dictSet, dictGet, Ne.symm h]
  | cons p rest ih =>
      obtain ⟨k0, v0⟩ := p
      simp only [dictSet]
      by_cases h0 : k0 = k
      · subst h0
        rw [if_pos rfl]
        simp only [dictGet]
        rw [if_neg (Ne.symm h), if_neg (Ne.symm h)]
      · rw [if_neg h0]
        simp only [dictGet]
        by_cases h1 : k0 = k'
        · rw [if_pos h1, if_pos h1]
        · rw [if_neg h1, if_neg h1, ih]

theorem prodLens_nil : prodLens ([] : List (String × List α)) = 1 := rfl

theorem prodLens_cons (p : String × List α) (rest : List (String × List α)) :
    prodLens (p :: rest) = p.2.length * prodLens rest := by
  simp [prodLens]

theorem foldl_gridStep_closed (params : List (String × List α)) :
    ∀ (arr : List (String × List α)) (lastlen : Nat),
      (params.map Prod.fst).Nodup →
      (∀ k ∈ arr.map Prod.fst, k ∉ params.map Prod.fst) →
      (params.foldl gridStep (arr, lastlen)).1 =
        arr.map (fun q => (q.1, pyTile q.2 (prodLens params))) ++ gridCols lastlen params := by
  induction params with
  | nil =>
      intro arr lastlen _ _
      simp [gridCols, prodLens, pyTile_one]
  | cons p rest ih =>
      intro arr lastlen hnd hdisj
      obtain ⟨k, v⟩ := p
      have hkarr : k ∉ arr.map Prod.fst := by
        intro hk
        exact hdisj k hk (by simp)
      have harr1 : (arr.map (fun q => (q.1, pyTile q.2 v.length))).map Prod.fst
          = arr.map Prod.fst := by
        simp [List.map_map, Function.comp]
      have hstep : gridStep (arr, lastlen) (k, v) =
          (arr.map (fun q => (q.1, pyTile q.2 v.length)) ++
            [(k, v.flatMap (fun x => List.replicate lastlen x))], lastlen * v.length) := by
        simp only [gridStep]
        rw [dictSet_append _ _ _ (harr1 ▸ hkarr)]
      have hnd' : (rest.map Prod.fst).Nodup := (List.nodup_cons.mp (by simpa using hnd)).2
      have hknotrest : k ∉ rest.map Prod.fst := (List.nodup_cons.mp (by simpa using hnd)).1
      have hdisj' : ∀ k' ∈ ((arr.map (fun q => (q.1, pyTile q.2 v.length)) ++
          [(k, v.flatMap (fun x => List.replicate lastlen x))]).map Prod.fst),
          k' ∉ rest.map Prod.fst := by
        intro k' hk'
        simp only [List.map_append, List.mem_append, harr1] at hk'
        rcases hk' with hk' | hk'
        · intro hmem
          exact hdisj k' hk' (by simp [hmem])
        · simp at hk'
          subst hk'
          exact hknotrest
      rw [List.foldl_cons, hstep, ih _ _ hnd' hdisj']
      rw [List.map_append, List.map_map]
      have hmapeq : arr.map ((fun q => (q.1, pyTile q.2 (prodLens rest))) ∘
          (fun q => (q.1, pyTile q.2 v.length))) =
          arr.map (fun q => (q.1, pyTile q.2 (prodLens ((k, v) :: rest)))) := by
        apply List.map_congr_left
        intro q _
        simp [Function.comp, pyTile_pyTile, prodLens_cons]
      rw [hmapeq]
      simp [gridCols, List.append_assoc]

theorem grid_to_list_eq_gridCols (params : List (String × List α))
    (hnd : (params.map Prod.fst).Nodup) :
    grid_to_list params = gridCols 1 params := by
  have := foldl_gridStep_closed params [] 1 hnd (by simp)
  simpa [grid_to_list] using this

theorem pyTile_getD (l : List α) (n : Nat) :
    ∀ (i : Nat) (d : α), i < n * l.length →
      (pyTile l n).getD i d = l.getD (i % l.length) d := by
  induction n with
  | zero => intro i d h; simp at h
  | succ n ih =>
      intro i d h
      rw [pyTile_succ]
      by_cases hi : i < l.length
      · rw [List.getD_append _ _ _ _ hi, Nat.mod_eq_of_lt hi]
      · push_neg at hi
        have hbound : i - l.length < n * l.length := by
          have hsucc : (n + 1) * l.length = n * l.length + l.length := Nat.succ_mul n l.length
          rw [Nat.sub_lt_iff_lt_add hi, Nat.add_comm]
          rw [hsucc] at h
          exact h
        rw [List.getD_append_right _ _ _ _ hi, ih _ _ hbound,
          ← Nat.mod_eq_sub_mod hi]

theorem flatMap_replicate_length (v : List α) (pre : Nat) :
    (v.flatMap (fun x => List.replicate pre x)).length = v.length * pre := by
  induction v with
  | nil => simp
  | cons x rest ih =>
      rw [List.flatMap_cons, List.length_append, List.length_replicate, ih,
        List.length_cons, Nat.succ_mul, Nat.add_comm]

theorem flatMap_replicate_getD (v : List α) (pre : Nat) (hpre : 0 < pre) :
    ∀ (i : Nat) (d : α), i < v.length * pre →
      (v.flatMap (fun x => List.replicate pre x)).getD i d = v.getD (i / pre) d := by
  induction v with
  | nil => intro i d h; simp at h
  | cons x rest ih =>
      intro i d h
      rw [List.flatMap_cons]
      by_cases hi : i < pre
      · rw [List.getD_append _ _ _ _ (by simpa using hi), Nat.div_eq_of_lt hi]
        rw [List.getD_eq_getElem _ _ (by simpa using hi), List.getElem_replicate]
        rfl
      · push_neg at hi
        have hbound : i - pre < rest.length * pre := by
          have hsucc : (x :: rest).length * pre = rest.length * pre + pre := by
            rw [List.length_cons, Nat.succ_mul]
          rw [Nat.sub_lt_iff_lt_add hi, Nat.add_comm]
          rw [hsucc] at h
          exact h
        have hlen : (List.replicate pre x).length ≤ i := by simpa using hi
        rw [List.getD_append_right _ _ _ _ hlen, List.length_replicate,
          ih _ _ hbound]
        have hdiv : i / pre = (i - pre) / pre + 1 := by
          conv_lhs => rw [← Nat.sub_add_cancel hi]
          rw [Nat.add_div_right _ hpre]
        rw [hdiv]
        simp [List.getD]

theorem gridCols_keys (pre : Nat) (params : List (String × List α)) :
    (gridCols pre params).map Prod.fst = params.map Prod.fst := by
  induction params generalizing pre with
  | nil => rfl
  | cons p rest ih =>
      obtain ⟨k, v⟩ := p
      simp [gridCols, ih]

theorem gridCols_length (pre : Nat) (params : List (String × List α)) :
    (gridCols pre params).length = params.length := by
  have := congrArg List.length (gridCols_keys pre params)
  simpa using this

theorem gridCols_col_length (params : List (String × List α)) :
    ∀ (pre : Nat), ∀ q ∈ gridCols pre params, q.2.length = pre * prodLens params := by
  induction params with
  | nil => intro pre q hq; simp [gridCols] at hq
  | cons p rest ih =>
      intro pre q hq
      obtain ⟨k, v⟩ := p
      simp only [gridCols, List.mem_cons] at hq
      rcases hq with hq | hq
      · subst hq
        simp only [pyTile_length, flatMap_replicate_length, prodLens_cons]
        ring
      · rw [ih (pre * v.length) q hq, prodLens_cons]
        ring

theorem gridCols_getD (params : List (String × List α)) :
    ∀ (pre : Nat), 0 < pre → (∀ p ∈ params, p.2 ≠ []) →
      ∀ (j : Nat), j < params.length →
      ∀ (i : Nat) (d : α), i < pre * prodLens params →
      (((gridCols pre params).getD j ("", [])).2).getD i d =
        ((params.getD j ("", [])).2).getD
          ((i / (pre * prodLens (params.take j))) % ((params.getD j ("", [])).2).length) d := by
  induction params with
  | nil => intro pre _ _ j hj; simp at hj
  | cons p rest ih =>
      intro pre hpre hne j hj i d hi
      obtain ⟨k, v⟩ := p
      have hv : v ≠ [] := hne (k, v) (by simp)
      have hvlen : 0 < v.length := List.length_pos.mpr hv
      match j with
      | 0 =>
          simp only [gridCols, List.getD_cons_zero, List.take_zero, prodLens_nil,
            Nat.mul_one]
          have hflen : (v.flatMap (fun x => List.replicate pre x)).length
              = v.length * pre := flatMap_replicate_length v pre
          have hi' : i < prodLens rest * (v.flatMap (fun x => List.replicate pre x)).length := by
            rw [hflen]
            calc i < pre * prodLens ((k, v) :: rest) := hi
              _ = prodLens rest * (v.length * pre) := by rw [prodLens_cons]; ring
          rw [pyTile_getD _ _ _ _ hi', hflen]
          have hmodlt : i % (v.length * pre) < v.length * pre :=
            Nat.mod_lt i (Nat.mul_pos hvlen hpre)
          rw [flatMap_replicate_getD v pre hpre _ _ hmodlt]
          congr 1
          rw [Nat.mul_comm v.length pre, Nat.mod_mul_right_div_self]
      | Nat.succ j =>
          simp only [gridCols, List.getD_cons_succ, List.take_succ_cons]
          have hne' : ∀ q ∈ rest, q.2 ≠ [] := fun q hq => hne q (by simp [hq])
          have hpre' : 0 < pre * v.length := Nat.mul_pos hpre hvlen
          have hj' : j < rest.length := by simpa using hj
          have hi' : i < pre * v.length * prodLens rest := by
            calc i < pre * prodLens ((k, v) :: rest) := hi
              _ = pre * v.length * prodLens rest := by rw [prodLens_cons]; ring
          rw [ih (pre * v.length) hpre' hne' j hj' i d hi']
          congr 2
          rw [prodLens_cons]
          ring

theorem grid_digits_unique (params : List (String × List α)) :
    (∀ p ∈ params, p.2 ≠ []) →
    ∀ ds : List Nat, ds.length = params.length →
      (∀ j, j < params.length → ds.getD j 0 < ((params.getD j ("", [])).2).length) →
      ∃! i, i < prodLens params ∧ ∀ j, j < params.length →
        (i / prodLens (params.take j)) % ((params.getD j ("", [])).2).length = ds.getD j 0 := by
  induction params with
  | nil =>
      intro _ ds _ _
      refine ⟨0, ⟨by simp [prodLens_nil], fun j hj => by simp at hj⟩, ?_⟩
      intro i' hi'
      have h1 := hi'.1
      simp only [prodLens_nil] at h1
      omega
  | cons p rest ih =>
      intro hne ds hlen hds
      obtain ⟨k, v⟩ := p
      match ds with
      | [] => simp at hlen
      | d0 :: ds' =>
          have hv : v ≠ [] := hne (k, v) (by simp)
          have hL : 0 < v.length := List.length_pos.mpr hv
          have hd0 : d0 < v.length := by
            have := hds 0 (by simp)
            simpa using this
          have hne' : ∀ q ∈ rest, q.2 ≠ [] := fun q hq => hne q (by simp [hq])
          have hlen' : ds'.length = rest.length := by simpa using hlen
          have hds' : ∀ j, j < rest.length →
              ds'.getD j 0 < ((rest.getD j ("", [])).2).length := by
            intro j hj
            have := hds (j + 1) (by simpa using Nat.succ_lt_succ hj)
            simpa using this
          obtain ⟨i', ⟨hi'lt, hi'dig⟩, huniq⟩ := ih hne' ds' hlen' hds'
          refine ⟨d0 + v.length * i', ⟨?_, ?_⟩, ?_⟩
          · rw [prodLens_cons]
            calc d0 + v.length * i' < v.length + v.length * i' := by omega
              _ = v.length * (i' + 1) := by ring
              _ ≤ v.length * prodLens rest := Nat.mul_le_mul_left _ (by omega)
          · intro j hj
            match j with
            | 0 =>
                simp only [List.take_zero, prodLens_nil, List.getD_cons_zero, Nat.div_one]
                rw [Nat.add_mul_mod_self_left]
                exact Nat.mod_eq_of_lt hd0
            | Nat.succ j =>
                simp only [List.take_succ_cons, List.getD_cons_succ, prodLens_cons]
                have hstep : (d0 + v.length * i') / (v.length * prodLens (List.take j rest))
                    = i' / prodLens (List.take j rest) := by
                  rw [← Nat.div_div_eq_div_mul]
                  congr 1
                  rw [Nat.add_mul_div_left _ _ hL, Nat.div_eq_of_lt hd0, Nat.zero_add]
                rw [hstep]
                exact hi'dig j (by simpa using hj)
          · rintro i1 ⟨hi1lt, hi1dig⟩
            have h0 := hi1dig 0 (by simp)
            simp only [List.take_zero, prodLens_nil, Nat.div_one, List.getD_cons_zero] at h0
            have hrest : ∀ j, j < rest.length →
                ((i1 / v.length) / prodLens (List.take j rest)) %
                  ((rest.getD j ("", [])).2).length = ds'.getD j 0 := by
              intro j hj
              have := hi1dig (j + 1) (by simpa using Nat.succ_lt_succ hj)
              simp only [List.take_succ_cons, List.getD_cons_succ, prodLens_cons] at this
              rw [Nat.div_div_eq_div_mul]
              exact this
            have hi1ltdiv : i1 / v.length < prodLens rest := by
              rw [prodLens_cons] at hi1lt
              exact Nat.div_lt_of_lt_mul hi1lt
            have heq := huniq (i1 / v.length) ⟨hi1ltdiv, hrest⟩
            have hdm := Nat.div_add_mod i1 v.length
            rw [heq, h0] at hdm
            omega

theorem grid_to_list_keys (params : List (String × List α))
    (hnd : (params.map Prod.fst).Nodup) :
    (grid_to_list params).map Prod.fst = params.map Prod.fst := by
  rw [grid_to_list_eq_gridCols params hnd, gridCols_keys]

theorem grid_to_list_col_length (params : List (String × List α))
    (hnd : (params.map Prod.fst).Nodup) :
    ∀ q ∈ grid_to_list params, q.2.length = prodLens params := by
  rw [grid_to_list_eq_gridCols params hnd]
  intro q hq
  simpa using gridCols_col_length params 1 q hq

theorem grid_to_list_getD (params : List (String × List α))
    (hnd : (params.map Prod.fst).Nodup) (hne : ∀ p ∈ params, p.2 ≠ [])
    (j : Nat) (hj : j < params.length) (i : Nat) (d : α)
    (hi : i < prodLens params) :
    (((grid_to_list params).getD j ("", [])).2).getD i d =
      ((params.getD j ("", [])).2).getD
        ((i / prodLens (params.take j)) % ((params.getD j ("", [])).2).length) d := by
  rw [grid_to_list_eq_gridCols params hnd]
  have := gridCols_getD params 1 (by omega) hne j hj i d (by simpa using hi)
  simpa using this

theorem grid_to_list_length (params : List (String × List α))
    (hnd : (params.map Prod.fst).Nodup) :
    (grid_to_list params).length = params.length := by
  have := congrArg List.length (grid_to_list_keys params hnd)
  simpa using this

theorem grid_to_list_key_getD (params : List (String × List α))
    (hnd : (params.map Prod.fst).Nodup) (j : Nat) (hj : j < params.length) :
    ((grid_to_list params).getD j ("", [])).1 = (params.getD j ("", [])).1 := by
  have hlen : (grid_to_list params).length = params.length := grid_to_list_length params hnd
  have hj' : j < (grid_to_list params).length := by omega
  have hmap := grid_to_list_keys params hnd
  have h1 : ((grid_to_list params).map Prod.fst).getD j "" =
      ((params.map Prod.fst)).getD j "" := by rw [hmap]
  rw [List.getD_eq_getElem _ _ (by simpa using hj'), List.getD_eq_getElem _ _ (by simpa using hj)] at h1
  rw [List.getElem_map, List.getElem_map] at h1
  rw [List.getD_eq_getElem _ _ hj', List.getD_eq_getElem _ _ hj]
  exact h1

/-- C2: for a hyperparameter grid (distinct names, non-empty candidate
lists), `grid_to_list` returns a mapping over the same names in the same
order; every output column has length `N = prodLens params` (the product of
the candidate-list lengths); position `i` of the `j`-th column holds the
`j`-th parameter's candidate at index `(i / prodLens (take j)) % len_j`,
i.e. positions read across all names are exactly the points of the Cartesian
product in mixed-radix order; and every digit tuple (every product point)
occurs at exactly one position.  Determinism is immediate: the embedding of
`grid_to_list` is a pure function of its input. -/
theorem grid_to_list_cartesian_product (α : Type) (params : List (String × List α))
    (hnd : (params.map Prod.fst).Nodup) (hne : ∀ p ∈ params, p.2 ≠ []) :
    ((grid_to_list params).map Prod.fst = params.map Prod.fst) ∧
    (∀ q ∈ grid_to_list params, q.2.length = prodLens params) ∧
    (∀ j, j < params.length → ∀ i, i < prodLens params → ∀ d : α,
      (((grid_to_list params).getD j ("", [])).2).getD i d =
        ((params.getD j ("", [])).2).getD
          ((i / prodLens (params.take j)) % ((params.getD j ("", [])).2).length) d) ∧
    (∀ ds : List Nat, ds.length = params.length →
      (∀ j, j < params.length → ds.getD j 0 < ((params.getD j ("", [])).2).length) →
      ∃! i, i < prodLens params ∧ ∀ j, j < params.length →
        (i / prodLens (params.take j)) % ((params.getD j ("", [])).2).length = ds.getD j 0) :=
  ⟨grid_to_list_keys params hnd, grid_to_list_col_length params hnd,
    fun j hj i hi d => grid_to_list_getD params hnd hne j hj i d hi,
    fun ds h1 h2 => grid_digits_unique params hne ds h1 h2⟩

theorem grid_to_list_cartesian_product_witness :
    ((([("lr", [1, 2]), ("bs", [8, 16])] : List (String × List Nat)).map Prod.fst).Nodup) ∧
    (∀ p ∈ ([("lr", [1, 2]), ("bs", [8, 16])] : List (String × List Nat)), p.2 ≠ []) ∧
    (grid_to_list ([("lr", [1, 2]), ("bs", [8, 16])] : List (String × List Nat))).map Prod.fst
      = ["lr", "bs"] ∧
    (∀ q ∈ grid_to_list ([("lr", [1, 2]), ("bs", [8, 16])] : List (String × List Nat)),
      q.2.length = 4) := by
  have h := grid_to_list_cartesian_product Nat [("lr", [1, 2]), ("bs", [8, 16])]
    (by decide) (by decide)
  refine ⟨by decide, by decide, by simpa using h.1, ?_⟩
  intro q hq
  have := h.2.1 q hq
  simpa using this

/-- C1 (counterexample): on the grid of the claim's own scenario,
`{'lr': [0.1, 0.2], 'bs': [8, 16]}` (literals as exact rationals),
`grid_to_list` produces the columns `lr = [0.1, 0.2, 0.1, 0.2]`,
`bs = [8, 8, 16, 16]` — the point sequence `(0.1,8), (0.2,8), (0.1,16),
(0.2,16)` — and in particular does NOT produce the columns
`lr = [0.1, 0.1, 0.2, 0.2]`, `bs = [8, 16, 8, 16]` that the claimed order
`(0.1,8), (0.1,16), (0.2,8), (0.2,16)` (earliest parameter slowest) would
require. -/
theorem grid_enumeration_order_counterexample :
    (grid_to_list [("lr", [(0.1 : ℚ), 0.2]), ("bs", [(8 : ℚ), 16])] =
      [("lr", [0.1, 0.2, 0.1, 0.2]), ("bs", [8, 8, 16, 16])]) ∧
    ¬ (grid_to_list [("lr", [(0.1 : ℚ), 0.2]), ("bs", [(8 : ℚ), 16])] =
      [("lr", [0.1, 0.1, 0.2, 0.2]), ("bs", [8, 16, 8, 16])]) := by
  constructor
  · rfl
  · intro h
    have hc : grid_to_list [("lr", [(0.1 : ℚ), 0.2]), ("bs", [(8 : ℚ), 16])] =
        [("lr", [0.1, 0.2, 0.1, 0.2]), ("bs", [8, 8, 16, 16])] := rfl
    rw [hc] at h
    norm_num at h

/-- C1 (amended): `grid_to_list` enumerates the full Cartesian product with
the EARLIEST-declared parameter varying fastest (later-declared parameters
cycle slower): the `j`-th parameter's value at position `i` is its candidate
at index `(i / prodLens (take j)) % len_j`, whose divisor is the product of
the lengths of the parameters declared BEFORE `j`.  In particular, for the
grid `{'lr': [0.1, 0.2], 'bs': [8, 16]}` the four assignments are, in order,
`(0.1,8), (0.2,8), (0.1,16), (0.2,16)`, and `task_gen` turns them into tasks
with iterations 1..4 in that order. -/
theorem grid_enumeration_order_amended :
    (∀ (α : Type) (params : List (String × List α)),
      (params.map Prod.fst).Nodup → (∀ p ∈ params, p.2 ≠ []) →
      ∀ j, j < params.length → ∀ i, i < prodLens params → ∀ d : α,
        (((grid_to_list params).getD j ("", [])).2).getD i d =
          ((params.getD j ("", [])).2).getD
            ((i / prodLens (params.take j)) % ((params.getD j ("", [])).2).length) d) ∧
    ((task_gen ({} : RunStruct ℚ) [("lr", [(0.1 : ℚ), 0.2]), ("bs", [8, 16])]).map
        (fun t => (t.metadata.iteration, dictGet t.spec.parameters "lr",
          dictGet t.spec.parameters "bs")) =
      [(some 1, some 0.1, some 8), (some 2, some 0.2, some 8),
       (some 3, some 0.1, some 16), (some 4, some 0.2, some 16)]) := by
  constructor
  · intro α params hnd hne j hj i hi d
    exact grid_to_list_getD params hnd hne j hj i d hi
  · rfl

theorem grid_enumeration_order_amended_witness :
    ((([("lr", [1, 2]), ("bs", [8, 16])] : List (String × List Nat)).map Prod.fst).Nodup) ∧
    (∀ p ∈ ([("lr", [1, 2]), ("bs", [8, 16])] : List (String × List Nat)), p.2 ≠ []) ∧
    ((((grid_to_list ([("lr", [1, 2]), ("bs", [8, 16])] : List (String × List Nat))).getD
        0 ("", [])).2).getD 1 0 =
      ((([("lr", [1, 2]), ("bs", [8, 16])] : List (String × List Nat)).getD 0 ("", [])).2).getD
        ((1 / prodLens (([("lr", [1, 2]), ("bs", [8, 16])] :
          List (String × List Nat)).take 0)) %
          ((([("lr", [1, 2]), ("bs", [8, 16])] : List (String × List Nat)).getD
            0 ("", [])).2).length) 0) :=
  ⟨by decide, by decide,
    grid_enumeration_order_amended.1 Nat [("lr", [1, 2]), ("bs", [8, 16])]
      (by decide) (by decide) 0 (by decide) 1 (by decide) 0⟩

/-- C4: `_post_run` on a falsy result returns `{}` (modelled `none`) and
mutates nothing (no state write, no timestamp, no database save); on a
non-falsy result it sets `status.state` to `completed` unless the state is
already `error` — which is preserved, never overwritten — and always stamps
`status.last_update` with the current clock reading, leaving every other
field of the struct unchanged. -/
theorem post_run_state_rule (α : Type) (τ : Nat → String) (rundb : Bool)
    (s : RunStruct α) (st : SysState α) :
    (post_run τ rundb (none : Option (RunStruct α)) st = (none, st)) ∧
    ((post_run τ rundb (some s) st).1 = some (finalize (τ st.time) s)) ∧
    ((finalize (τ st.time) s).status.state =
      if s.status.state = some "error" then some "error" else some "completed") ∧
    ((finalize (τ st.time) s).status.last_update = some (τ st.time)) ∧
    ((finalize (τ st.time) s).status.outputs = s.status.outputs) ∧
    ((finalize (τ st.time) s).status.start_time = s.status.start_time) ∧
    ((finalize (τ st.time) s).status.iterations = s.status.iterations) ∧
    ((finalize (τ st.time) s).spec = s.spec) ∧
    ((finalize (τ st.time) s).metadata = s.metadata) := by
  refine ⟨rfl, rfl, ?_, rfl, rfl, rfl, rfl, rfl, rfl⟩
  unfold finalize
  cases hs : s.status.state with
  | none => simp
  | some v =>
      by_cases hv : v = "error"
      · subst hv
        simp [hs]
      · simp [hs, hv, Option.getD]

theorem applyPoint_cons [Inhabited α] (base : List (String × α))
    (p : String × List α) (rest : List (String × List α)) (i : Nat) :
    applyPoint base (p :: rest) i =
      applyPoint (dictSet base p.1 (p.2.getD i default)) rest i := rfl

theorem dictGet_applyPoint_not_mem [Inhabited α] (params : List (String × List α)) :
    ∀ (base : List (String × α)) (i : Nat) (k : String),
      k ∉ params.map Prod.fst →
      dictGet (applyPoint base params i) k = dictGet base k := by
  induction params with
  | nil => intro base i k _; rfl
  | cons p rest ih =>
      intro base i k hk
      simp only [List.map_cons, List.mem_cons, not_or] at hk
      rw [applyPoint_cons, ih _ i k hk.2, dictGet_dictSet_ne _ _ _ _ hk.1]

theorem dictGet_applyPoint [Inhabited α] (params : List (String × List α)) :
    ∀ (base : List (String × α)) (i : Nat) (j : Nat),
      (params.map Prod.fst).Nodup → j < params.length →
      dictGet (applyPoint base params i) ((params.getD j ("", [])).1) =
        some (((params.getD j ("", [])).2).getD i default) := by
  induction params with
  | nil => intro base i j _ hj; simp at hj
  | cons p rest ih =>
      intro base i j hnd hj
      rw [List.map_cons] at hnd
      have hnd' := List.nodup_cons.mp hnd
      match j with
      | 0 =>
          simp only [List.getD_cons_zero]
          rw [applyPoint_cons, dictGet_applyPoint_not_mem rest _ i p.1 hnd'.1,
            dictGet_dictSet_self]
      | Nat.succ j =>
          simp only [List.getD_cons_succ]
          exact ih _ i j hnd'.2 (by simpa using hj)

theorem task_gen_length [Inhabited α] (s : RunStruct α)
    (g : List (String × List α)) (hnd : (g.map Prod.fst).Nodup) (hg : g ≠ []) :
    (task_gen s g).length = prodLens g := by
  unfold task_gen
  simp only [List.length_map, List.length_range]
  cases hgl : grid_to_list g with
  | nil =>
      exfalso
      have := grid_to_list_length g hnd
      rw [hgl] at this
      exact hg (List.length_eq_zero.mp this.symm)
  | cons p rest =>
      have hp : p ∈ grid_to_list g := by rw [hgl]; simp
      exact grid_to_list_col_length g hnd p hp

theorem task_gen_getD [Inhabited α] (s : RunStruct α)
    (g : List (String × List α)) (hnd : (g.map Prod.fst).Nodup) (hg : g ≠ [])
    (i : Nat) (hi : i < prodLens g) :
    (task_gen s g).getD i default =
      { s with
        spec := { s.spec with
          parameters := applyPoint s.spec.parameters (grid_to_list g) i },
        metadata := { s.metadata with iteration := some (i + 1) } } := by
  have hlen : (task_gen s g).length = prodLens g := task_gen_length s g hnd hg
  have hi' : i < (task_gen s g).length := by omega
  rw [List.getD_eq_getElem _ _ hi']
  unfold task_gen
  simp only [List.getElem_map, List.getElem_range]

theorem task_gen_iterations [Inhabited α] (s : RunStruct α)
    (g : List (String × List α)) (hnd : (g.map Prod.fst).Nodup) (hg : g ≠ []) :
    (task_gen s g).map (fun t => t.metadata.iteration) =
      (List.range (prodLens g)).map (fun i => some (i + 1)) := by
  have hlen1 : (task_gen s g).length = prodLens g := task_gen_length s g hnd hg
  apply List.ext_getElem
  · simp [hlen1]
  · intro i h1 h2
    simp only [List.getElem_map, List.getElem_range]
    have hi : i < prodLens g := by simpa using h2
    have hgd := task_gen_getD s g hnd hg i hi
    rw [List.getD_eq_getElem _ _ (by omega)] at hgd
    rw [hgd]

/-- C3: for a non-empty well-formed grid expanding to `N = prodLens g`
points, `task_gen` yields exactly `N` run structs; the `i`-th (0-based) has
`metadata.iteration = i + 1` — so the iteration fields over the sequence are
exactly `1..N` in order, with no gaps or repeats — carries the base's other
fields unchanged (uid, project, status, hyperparams, output path: each yield
is a full copy of the base), and its `spec.parameters` is the base's dict
updated with the `i`-th grid assignment (each declared name maps to position
`i` of its expanded column; undeclared names keep their base value).  The
copies are deep and independent: in the embedding each yielded struct is its
own value derived from the base alone, so no aliasing exists by
construction (`deepcopy` in the source is what justifies this value
semantics). -/
theorem task_gen_clones (α : Type) [Inhabited α] (s : RunStruct α)
    (g : List (String × List α)) (hnd : (g.map Prod.fst).Nodup)
    (hne : ∀ p ∈ g, p.2 ≠ []) (hg : g ≠ []) :
    ((task_gen s g).length = prodLens g) ∧
    ((task_gen s g).map (fun t => t.metadata.iteration) =
      (List.range (prodLens g)).map (fun i => some (i + 1))) ∧
    (∀ i, i < prodLens g →
      ((task_gen s g).getD i default).metadata.iteration = some (i + 1) ∧
      ((task_gen s g).getD i default).metadata.uid = s.metadata.uid ∧
      ((task_gen s g).getD i default).metadata.project = s.metadata.project ∧
      ((task_gen s g).getD i default).status = s.status ∧
      ((task_gen s g).getD i default).spec.hyperparams = s.spec.hyperparams ∧
      ((task_gen s g).getD i default).spec.output_path = s.spec.output_path) ∧
    (∀ i, i < prodLens g → ∀ j, j < g.length →
      dictGet (((task_gen s g).getD i default).spec.parameters) ((g.getD j ("", [])).1) =
        some ((((grid_to_list g).getD j ("", [])).2).getD i default)) ∧
    (∀ i, i < prodLens g → ∀ k, k ∉ g.map Prod.fst →
      dictGet (((task_gen s g).getD i default).spec.parameters) k =
        dictGet s.spec.parameters k) := by
  have hkeys := grid_to_list_keys g hnd
  have hndg : ((grid_to_list g).map Prod.fst).Nodup := by rw [hkeys]; exact hnd
  refine ⟨task_gen_length s g hnd hg, task_gen_iterations s g hnd hg, ?_, ?_, ?_⟩
  · intro i hi
    rw [task_gen_getD s g hnd hg i hi]
    exact ⟨rfl, rfl, rfl, rfl, rfl, rfl⟩
  · intro i hi j hj
    rw [task_gen_getD s g hnd hg i hi]
    have hjg : j < (grid_to_list g).length := by
      rw [grid_to_list_length g hnd]; exact hj
    have h1 := dictGet_applyPoint (grid_to_list g) s.spec.parameters i j hndg hjg
    rw [grid_to_list_key_getD g hnd j hj] at h1
    exact h1
  · intro i hi k hk
    rw [task_gen_getD s g hnd hg i hi]
    have hk' : k ∉ (grid_to_list g).map Prod.fst := by rw [hkeys]; exact hk
    exact dictGet_applyPoint_not_mem (grid_to_list g) s.spec.parameters i k hk'

theorem task_gen_clones_witness :
    ((([("a", [1, 2]), ("b", [5])] : List (String × List Nat)).map Prod.fst).Nodup) ∧
    (∀ p ∈ ([("a", [1, 2]), ("b", [5])] : List (String × List Nat)), p.2 ≠ []) ∧
    (task_gen ({ metadata := { uid := "u" }, spec := { parameters := [("q", 7)] } } :
        RunStruct Nat) [("a", [1, 2]), ("b", [5])]).length = 2 ∧
    (task_gen ({ metadata := { uid := "u" }, spec := { parameters := [("q", 7)] } } :
        RunStruct Nat) [("a", [1, 2]), ("b", [5])]).map (fun t => t.metadata.iteration) =
      [some 1, some 2] := by
  have h := task_gen_clones Nat
    ({ metadata := { uid := "u" }, spec := { parameters := [("q", 7)] } } : RunStruct Nat)
    [("a", [1, 2]), ("b", [5])] (by decide) (by decide) (by decide)
  refine ⟨by decide, by decide, h.1.trans (by decide), h.2.1.trans (by decide)⟩

theorem resolvedItem_key (mgr : AMState α) (execinfo : ExecInfo)
    (item : String ⊕ ArtifactR α) (body : Option α)
    (target_path src_path tag viewer : String) :
    (resolvedItem mgr execinfo item body target_path src_path tag viewer).key
      = logKey item := by
  cases item <;> rfl

theorem log_artifact_registry (mgr : AMState α) (stores : DataStores α)
    (db : Option (ArtifactDb α)) (execinfo : ExecInfo)
    (item : String ⊕ ArtifactR α) (body : Option α)
    (target_path src_path tag viewer : String) (upload : Bool) :
    ∃ it : ArtifactR α,
      dictGet ((log_artifact mgr stores db execinfo item body target_path
          src_path tag viewer upload).1).output_artifacts (logKey item) = some it ∧
      it.key = logKey item ∧
      it.target_path = resolvedTarget mgr item target_path ∧
      it.tag = resolvedTag execinfo item body src_path tag viewer := by
  unfold log_artifact
  dsimp only
  split
  · exact ⟨resolvedItem mgr execinfo item body target_path src_path tag viewer,
      dictGet_dictSet_self _ _ _,
      resolvedItem_key mgr execinfo item body target_path src_path tag viewer, rfl, rfl⟩
  · split
    · exact ⟨resolvedItem mgr execinfo item body target_path src_path tag viewer,
        dictGet_dictSet_self _ _ _,
        resolvedItem_key mgr execinfo item body target_path src_path tag viewer, rfl, rfl⟩
    · split
      · exact ⟨_, dictGet_dictSet_self _ _ _,
          resolvedItem_key mgr execinfo item body target_path src_path tag viewer, rfl, rfl⟩
      · exact ⟨_, dictGet_dictSet_self _ _ _,
          resolvedItem_key mgr execinfo item body target_path src_path tag viewer, rfl, rfl⟩

theorem log_artifact_state (mgr : AMState α) (stores : DataStores α)
    (db : Option (ArtifactDb α)) (execinfo : ExecInfo)
    (item : String ⊕ ArtifactR α) (body : Option α)
    (target_path src_path tag viewer : String) (upload : Bool) :
    ((log_artifact mgr stores db execinfo item body target_path
        src_path tag viewer upload).1).out_path = mgr.out_path ∧
    ((log_artifact mgr stores db execinfo item body target_path
        src_path tag viewer upload).1).outputs_spec = mgr.outputs_spec ∧
    (∀ k, k ≠ logKey item →
      dictGet ((log_artifact mgr stores db execinfo item body target_path
          src_path tag viewer upload).1).output_artifacts k
        = dictGet mgr.output_artifacts k) := by
  unfold log_artifact
  dsimp only
  split
  · exact ⟨rfl, rfl, fun k hk => dictGet_dictSet_ne _ _ _ _ hk⟩
  · split
    · exact ⟨rfl, rfl, fun k hk => dictGet_dictSet_ne _ _ _ _ hk⟩
    · split
      · exact ⟨rfl, rfl, fun k hk =>
          (dictGet_dictSet_ne _ _ _ _ hk).trans (dictGet_dictSet_ne _ _ _ _ hk)⟩
      · exact ⟨rfl, rfl, fun k hk =>
          (dictGet_dictSet_ne _ _ _ _ hk).trans (dictGet_dictSet_ne _ _ _ _ hk)⟩

/-- C5: the target path stored for a logged artifact follows the precedence
highest-first: a non-empty override registered in `outputs_spec` for the key,
then the caller-supplied/artifact-carried `target_path`, then the default
`uxjoin(out_path, key)`; the resolved path is written back onto the artifact
kept in the registry. -/
theorem log_artifact_target_precedence (α : Type) (mgr : AMState α)
    (stores : DataStores α) (db : Option (ArtifactDb α)) (execinfo : ExecInfo)
    (item : String ⊕ ArtifactR α) (body : Option α)
    (target_path src_path tag viewer : String) (upload : Bool) :
    (∀ p : String, dictGet mgr.outputs_spec (logKey item) = some (some p) → p ≠ "" →
      ∃ it : ArtifactR α,
        dictGet ((log_artifact mgr stores db execinfo item body target_path
            src_path tag viewer upload).1).output_artifacts (logKey item) = some it ∧
        it.target_path = p) ∧
    ((dictGet mgr.outputs_spec (logKey item) = none ∨
      dictGet mgr.outputs_spec (logKey item) = some none ∨
      dictGet mgr.outputs_spec (logKey item) = some (some "")) →
      argTarget item target_path ≠ "" →
      ∃ it : ArtifactR α,
        dictGet ((log_artifact mgr stores db execinfo item body target_path
            src_path tag viewer upload).1).output_artifacts (logKey item) = some it ∧
        it.target_path = argTarget item target_path) ∧
    ((dictGet mgr.outputs_spec (logKey item) = none ∨
      dictGet mgr.outputs_spec (logKey item) = some none ∨
      dictGet mgr.outputs_spec (logKey item) = some (some "")) →
      argTarget item target_path = "" →
      ∃ it : ArtifactR α,
        dictGet ((log_artifact mgr stores db execinfo item body target_path
            src_path tag viewer upload).1).output_artifacts (logKey item) = some it ∧
        it.target_path = uxjoin mgr.out_path (logKey item)) := by
  obtain ⟨it, hget, hkey, htgt, htag⟩ := log_artifact_registry mgr stores db execinfo
    item body target_path src_path tag viewer upload
  refine ⟨?_, ?_, ?_⟩
  · intro p hp hpne
    refine ⟨it, hget, ?_⟩
    rw [htgt]
    unfold resolvedTarget
    rw [hp]
    simp [hpne]
  · intro hover hargne
    refine ⟨it, hget, ?_⟩
    rw [htgt]
    unfold resolvedTarget
    rcases hover with h | h | h <;> rw [h] <;> simp [hargne]
  · intro hover harg
    refine ⟨it, hget, ?_⟩
    rw [htgt]
    unfold resolvedTarget
    rcases hover with h | h | h <;> rw [h] <;> simp [harg]

/-- C8: when `log_artifact` fails with a `StorageError` (store resolve,
`put`, or `upload`) or a `PersistenceError` (run-database `store_artifact`),
only that call is aborted: the in-memory registry already maps the key to the
newly logged artifact with target path and tag resolved (the insertion
happens before the store and database calls in the source), the manager's
`out_path` and `outputs_spec` are untouched, and every other key's registry
entry is unchanged — so the call can simply be retried. -/
theorem log_artifact_failure_registry (α : Type) (mgr : AMState α)
    (stores : DataStores α) (db : Option (ArtifactDb α)) (execinfo : ExecInfo)
    (item : String ⊕ ArtifactR α) (body : Option α)
    (target_path src_path tag viewer : String) (upload : Bool) (e : LogErr)
    (herr : (log_artifact mgr stores db execinfo item body target_path
        src_path tag viewer upload).2 = Except.error e) :
    (∃ it : ArtifactR α,
      dictGet ((log_artifact mgr stores db execinfo item body target_path
          src_path tag viewer upload).1).output_artifacts (logKey item) = some it ∧
      it.key = logKey item ∧
      it.target_path = resolvedTarget mgr item target_path ∧
      it.tag = resolvedTag execinfo item body src_path tag viewer) ∧
    ((log_artifact mgr stores db execinfo item body target_path
        src_path tag viewer upload).1).out_path = mgr.out_path ∧
    ((log_artifact mgr stores db execinfo item body target_path
        src_path tag viewer upload).1).outputs_spec = mgr.outputs_spec ∧
    (∀ k, k ≠ logKey item →
      dictGet ((log_artifact mgr stores db execinfo item body target_path
          src_path tag viewer upload).1).output_artifacts k
        = dictGet mgr.output_artifacts k) := by
  obtain ⟨h1, h2, h3⟩ := log_artifact_state mgr stores db execinfo item body
    target_path src_path tag viewer upload
  exact ⟨log_artifact_registry mgr stores db execinfo item body target_path
    src_path tag viewer upload, h1, h2, h3⟩

/-- Fixture: an artifact manager with an `outputs_spec` override for key
`report` and default output directory `/out`. -/
def wMgr : AMState Nat :=
  { out_path := "/out",
    outputs_spec := [("report", some "/custom/report.html")] }

/-- Fixture: a store whose writes all succeed. -/
def wStoresOk : DataStores Nat :=
  { resolve := fun p => Except.ok p,
    put := fun _ _ => Except.ok (),
    upload := fun _ _ => Except.ok (),
    isfile := fun _ => false }

/-- Fixture: a store that resolves but whose `put`/`upload` raise a
`StorageError`. -/
def wStoresFail : DataStores Nat :=
  { resolve := fun p => Except.ok p,
    put := fun _ _ => Except.error (),
    upload := fun _ _ => Except.error (),
    isfile := fun _ => false }

theorem log_artifact_target_precedence_witness :
    (dictGet wMgr.outputs_spec "report" = some (some "/custom/report.html")) ∧
    ("/custom/report.html" ≠ "") ∧
    (∃ it : ArtifactR Nat,
      dictGet ((log_artifact wMgr wStoresOk none {} (Sum.inl "report") none
          "/other.html" "" "" "" true).1).output_artifacts "report" = some it ∧
      it.target_path = "/custom/report.html") :=
  ⟨rfl, by decide,
    (log_artifact_target_precedence Nat wMgr wStoresOk none {} (Sum.inl "report")
      none "/other.html" "" "" "" true).1 "/custom/report.html" rfl (by decide)⟩

theorem log_artifact_failure_registry_witness :
    ((log_artifact ({ out_path := "/out" } : AMState Nat) wStoresFail none {}
        (Sum.inl "model") (some 1) "" "" "" "" true).2
      = Except.error LogErr.storage) ∧
    (∃ it : ArtifactR Nat,
      dictGet ((log_artifact ({ out_path := "/out" } : AMState Nat) wStoresFail
          none {} (Sum.inl "model") (some 1) "" "" "" "" true).1).output_artifacts
        "model" = some it ∧
      it.key = "model" ∧
      it.target_path = resolvedTarget ({ out_path := "/out" } : AMState Nat)
        (Sum.inl "model") "" ∧
      it.tag = resolvedTag {} (Sum.inl "model") (some 1) "" "" "") :=
  ⟨rfl,
    (log_artifact_failure_registry Nat { out_path := "/out" } wStoresFail none {}
      (Sum.inl "model") (some 1) "" "" "" "" true LogErr.storage rfl).1⟩

theorem get_kfp_outputs_foldl (arts : List KfpArtifact) :
    ∀ acc : List KfpBlock,
      arts.foldl (fun outputs o => outputs ++ kfpBlocks o) acc
        = acc ++ arts.flatMap kfpBlocks := by
  induction arts with
  | nil => intro acc; simp
  | cons o rest ih =>
      intro acc
      rw [List.foldl_cons, ih, List.flatMap_cons, List.append_assoc]

theorem get_kfp_outputs_flatMap (arts : List KfpArtifact) :
    get_kfp_outputs arts = arts.flatMap kfpBlocks := by
  unfold get_kfp_outputs
  rw [get_kfp_outputs_foldl arts []]
  rfl

/-- Fixture: a `web-app` artifact whose target contains the `v3io:///`
scheme both as its prefix and again in the middle. -/
def wV3ioArt : KfpArtifact :=
  { key := "a", target_path := "v3io:///x/v3io:///y", viewer := "web-app" }

/-- C9 (counterexample): on an artifact with viewer `web-app` and target
`v3io:///x/v3io:///y`, the code emits a block whose source has BOTH
occurrences of `v3io:///` replaced (`str.replace` replaces every
occurrence), not only the leading one, so the emitted source differs from
the claim's prefix-only rewrite `http://v3io-webapi:8081/` ++ `x/v3io:///y`. -/
theorem report_blocks_counterexample :
    (get_kfp_outputs [wV3ioArt] =
      [KfpBlock.webApp "http://v3io-webapi:8081/x/http://v3io-webapi:8081/y"]) ∧
    ¬ (get_kfp_outputs [wV3ioArt] =
      [KfpBlock.webApp ("http://v3io-webapi:8081/" ++ "x/v3io:///y")]) := by
  constructor
  · decide
  · decide

/-- C9 (amended): `get_kfp_outputs` concatenates per-artifact blocks in
order.  An artifact whose viewer is `web-app` or `chart` emits exactly one
`{type: web-app, source: target}` block; an artifact whose viewer is `table`
emits exactly one `{type: table, format: csv, header, source}` block when it
declares a non-empty header and its target ends in `.csv`, and nothing
otherwise; every other artifact emits no block.  The target is the `inline`
payload when present, else `target_path`, and when it starts with the
`v3io:///` scheme EVERY occurrence of `v3io:///` in it is rewritten to
`http://v3io-webapi:8081/` (Python `str.replace`); for targets containing
the scheme only as a prefix this is exactly the prefix rewrite. -/
theorem report_blocks_amended (arts : List KfpArtifact) (o : KfpArtifact) :
    (get_kfp_outputs arts = arts.flatMap kfpBlocks) ∧
    (strStartsWith (o.inline.getD o.target_path) "v3io:///" = true →
      kfpTarget o = pyReplace (o.inline.getD o.target_path) "v3io:///"
        "http://v3io-webapi:8081/") ∧
    (strStartsWith (o.inline.getD o.target_path) "v3io:///" = false →
      kfpTarget o = o.inline.getD o.target_path) ∧
    (o.viewer = "web-app" ∨ o.viewer = "chart" →
      kfpBlocks o = [KfpBlock.webApp (kfpTarget o)]) ∧
    (∀ h : List String, o.viewer = "table" → o.header = some h → h ≠ [] →
      strEndsWith (kfpTarget o) ".csv" = true →
      kfpBlocks o = [KfpBlock.table "csv" h (kfpTarget o)]) ∧
    (o.viewer = "table" →
      (o.header = none ∨ o.header = some [] ∨
        strEndsWith (kfpTarget o) ".csv" = false) →
      kfpBlocks o = []) ∧
    (o.viewer ≠ "web-app" → o.viewer ≠ "chart" → o.viewer ≠ "table" →
      kfpBlocks o = []) := by
  refine ⟨get_kfp_outputs_flatMap arts, ?_, ?_, ?_, ?_, ?_, ?_⟩
  · intro hpre
    unfold kfpTarget
    dsimp only
    rw [hpre]
    rfl
  · intro hpre
    unfold kfpTarget
    dsimp only
    rw [hpre]
    rfl
  · intro hv
    unfold kfpBlocks
    dsimp only
    rw [if_pos hv]
  · intro h hv hh hne hcsv
    unfold kfpBlocks
    dsimp only
    have hnw : ¬ (o.viewer = "web-app" ∨ o.viewer = "chart") := by
      rw [hv]; decide
    rw [if_neg hnw, if_pos hv, hh]
    simp only [hne, hcsv, ne_eq, not_false_iff, true_and, and_true, if_true]
  · intro hv hbad
    unfold kfpBlocks
    dsimp only
    have hnw : ¬ (o.viewer = "web-app" ∨ o.viewer = "chart") := by
      rw [hv]; decide
    rw [if_neg hnw, if_pos hv]
    rcases hbad with h | h | h
    · rw [h]
    · rw [h]
      simp
    · cases hh : o.header with
      | none => rfl
      | some hd =>
          simp only []
          rw [if_neg]
          intro hcon
          rw [hcon.2] at h
          simp at h
  · intro h1 h2 h3
    unfold kfpBlocks
    dsimp only
    rw [if_neg (by simp [h1, h2]), if_neg h3]

theorem report_blocks_amended_witness :
    (wV3ioArt.viewer = "web-app" ∨ wV3ioArt.viewer = "chart") ∧
    kfpBlocks wV3ioArt = [KfpBlock.webApp (kfpTarget wV3ioArt)] :=
  ⟨by decide, (report_blocks_amended [] wV3ioArt).2.2.2.1 (by decide)⟩

theorem dictGet_eq_none (m : List (String × γ)) (k : String)
    (h : ∀ kv ∈ m, kv.1 ≠ k) : dictGet m k = none := by
  induction m with
  | nil => rfl
  | cons kv rest ih =>
      simp only [dictGet]
      rw [if_neg (h kv (by simp))]
      exact ih (fun kv' hkv' => h kv' (by simp [hkv']))

theorem dictGet_append_of_none (l1 l2 : List (String × γ)) (k : String)
    (h : dictGet l1 k = none) : dictGet (l1 ++ l2) k = dictGet l2 k := by
  induction l1 with
  | nil => rfl
  | cons kv rest ih =>
      obtain ⟨k0, v0⟩ := kv
      simp only [dictGet, List.cons_append] at h ⊢
      by_cases hk : k0 = k
      · rw [if_pos hk] at h
        exact absurd h (by simp)
      · rw [if_neg hk] at h ⊢
        exact ih h

theorem append_ne_of_length (p x k : String) (h : k.length < p.length) :
    p ++ x ≠ k := by
  intro he
  have hl := congrArg String.length he
  rw [String.length_append] at hl
  omega

theorem dictGet_prefixed_none (m : List (String × α)) (f : String × α → Cell β)
    (p k : String) (h : k.length < p.length) :
    dictGet (m.map (fun kv => (p ++ kv.1, f kv))) k = none := by
  apply dictGet_eq_none
  intro kv hkv
  simp only [List.mem_map] at hkv
  obtain ⟨q, _, hq⟩ := hkv
  rw [← hq]
  exact append_ne_of_length p q.1 k h

theorem dictGet_flatRow_state (t : RunStruct α) :
    dictGet (flatRow t) "state" = some (stateCellOf t) := by
  unfold flatRow
  rw [dictGet_append_of_none]
  · rfl
  · rw [dictGet_append_of_none]
    · exact dictGet_prefixed_none t.status.outputs _ "output." "state" (by decide)
    · exact dictGet_prefixed_none t.spec.parameters _ "param." "state" (by decide)

theorem dictGet_flatRow_iter (t : RunStruct α) :
    dictGet (flatRow t) "iter" = some (iterCellOf t) := by
  unfold flatRow
  rw [dictGet_append_of_none]
  · simp [dictGet]
  · rw [dictGet_append_of_none]
    · exact dictGet_prefixed_none t.status.outputs _ "output." "iter" (by decide)
    · exact dictGet_prefixed_none t.spec.parameters _ "param." "iter" (by decide)

theorem mem_innerFold (row : List (String × Cell α)) :
    ∀ acc : List String, ∀ k : String,
      (k ∈ acc ∨ k ∈ row.map Prod.fst) →
      k ∈ row.foldl (fun acc kv => if kv.1 ∈ acc then acc else acc ++ [kv.1]) acc := by
  induction row with
  | nil =>
      intro acc k hk
      rcases hk with hk | hk
      · exact hk
      · simp at hk
  | cons kv rest ih =>
      intro acc k hk
      rw [List.foldl_cons]
      rcases hk with hk | hk
      · apply ih
        left
        by_cases hmem : kv.1 ∈ acc
        · rw [if_pos hmem]; exact hk
        · rw [if_neg hmem]; exact List.mem_append_left _ hk
      · rw [List.map_cons, List.mem_cons] at hk
        rcases hk with hk | hk
        · subst hk
          apply ih
          left
          by_cases hmem : kv.1 ∈ acc
          · rw [if_pos hmem]; exact hmem
          · rw [if_neg hmem]; simp
        · exact ih _ k (Or.inr hk)

theorem mem_colsOf (rows : List (List (String × Cell α))) :
    ∀ acc : List String, ∀ k : String,
      (k ∈ acc ∨ ∃ row ∈ rows, k ∈ row.map Prod.fst) →
      k ∈ rows.foldl (fun acc row =>
        row.foldl (fun acc kv => if kv.1 ∈ acc then acc else acc ++ [kv.1]) acc) acc := by
  induction rows with
  | nil =>
      intro acc k hk
      rcases hk with hk | ⟨row, hrow, _⟩
      · exact hk
      · simp at hrow
  | cons row rest ih =>
      intro acc k hk
      rw [List.foldl_cons]
      rcases hk with hk | ⟨r, hr, hkr⟩
      · exact ih _ k (Or.inl (mem_innerFold row acc k (Or.inl hk)))
      · rw [List.mem_cons] at hr
        rcases hr with hr | hr
        · subst hr
          exact ih _ k (Or.inl (mem_innerFold r acc k (Or.inr hkr)))
        · exact ih _ k (Or.inr ⟨r, hr, hkr⟩)

theorem mem_colsOf_of_mem (rows : List (List (String × Cell α))) (k : String)
    (h : ∃ row ∈ rows, k ∈ row.map Prod.fst) : k ∈ colsOf rows :=
  mem_colsOf rows [] k (Or.inr h)

theorem indexOf_map_cellStr [DecidableEq α] (l : List String) (c : String) :
    (l.map (Cell.str : String → Cell α)).indexOf (Cell.str c) = l.indexOf c := by
  induction l with
  | nil => rfl
  | cons x rest ih =>
      by_cases h : x = c
      · subst h
        simp [List.indexOf_cons]
      · simp [List.indexOf_cons, h, ih, Cell.str.injEq]

theorem tableCol_iterTable [DecidableEq α] (results : List (RunStruct α)) (c : String)
    (hc : c ∈ colsOf (results.map flatRow)) :
    tableCol (iterTable results) c =
      (List.insertionSort rowLe (results.map flatRow)).map
        (fun r => (dictGet r c).getD Cell.null) := by
  unfold iterTable tableCol
  dsimp only
  rw [List.map_map]
  apply List.map_congr_left
  intro r _
  simp only [Function.comp]
  rw [indexOf_map_cellStr]
  have hidx : (colsOf (results.map flatRow)).indexOf c
      < (colsOf (results.map flatRow)).length :=
    List.indexOf_lt_length.mpr hc
  rw [List.getD_eq_getElem _ _ (by simpa using hidx), List.getElem_map,
    List.getElem_indexOf hidx]

theorem iterTable_length [DecidableEq α] (results : List (RunStruct α)) :
    (iterTable results).length = results.length + 1 := by
  unfold iterTable
  dsimp only
  rw [List.length_cons, List.length_map,
    (List.perm_insertionSort rowLe (results.map flatRow)).length_eq,
    List.length_map]

/-- `a ≤ b` on `iter` cells: both are iteration indices and they are in
ascending order. -/
def cellNumLe (c d : Cell α) : Prop :=
  ∃ a b : Nat, c = Cell.num a ∧ d = Cell.num b ∧ a ≤ b

theorem rowIterKey_flatRow (t : RunStruct α) (n : Nat)
    (h : t.metadata.iteration = some n) :
    rowIterKey (flatRow t) = some n ∧ iterCellOf t = Cell.num n := by
  have hic : iterCellOf t = Cell.num n := by unfold iterCellOf; rw [h]
  refine ⟨?_, hic⟩
  unfold rowIterKey
  rw [dictGet_flatRow_iter, hic]

theorem iter_mem_flatRow_keys (t : RunStruct α) :
    "iter" ∈ (flatRow t).map Prod.fst := by
  unfold flatRow
  simp

theorem state_mem_flatRow_keys (t : RunStruct α) :
    "state" ∈ (flatRow t).map Prod.fst := by
  unfold flatRow
  simp

/-- C6: aggregating a non-empty list of `N` task results (each carrying its
iteration index) writes into `status.iterations` a table of exactly `N + 1`
rows: the header row followed by one data row per task; the data rows' `iter`
column is a permutation of the tasks' iteration cells (one row per task) and
is sorted ascending, regardless of the order of the input list. -/
theorem results_to_iter_status_table (α : Type) [DecidableEq α]
    (base : RunStruct α) (results : List (RunStruct α)) (hres : results ≠ [])
    (hiter : ∀ t ∈ results, (t.metadata.iteration).isSome) :
    ((results_to_iter_status base results).status.iterations
      = some (iterTable results)) ∧
    ((iterTable results).length = results.length + 1) ∧
    ((tableCol (iterTable results) "iter").Perm (results.map iterCellOf)) ∧
    (List.Pairwise cellNumLe (tableCol (iterTable results) "iter")) := by
  obtain ⟨t0, rest0, hres0⟩ := List.exists_cons_of_ne_nil hres
  have hc : "iter" ∈ colsOf (results.map flatRow) := by
    apply mem_colsOf_of_mem
    exact ⟨flatRow t0, by rw [hres0]; simp, iter_mem_flatRow_keys t0⟩
  have hperm := List.perm_insertionSort rowLe (results.map flatRow)
  have heq : (results.map flatRow).map (fun r => (dictGet r "iter").getD Cell.null)
      = results.map iterCellOf := by
    rw [List.map_map]
    apply List.map_congr_left
    intro t _
    simp [Function.comp, dictGet_flatRow_iter]
  refine ⟨rfl, iterTable_length results, ?_, ?_⟩
  · rw [tableCol_iterTable results "iter" hc]
    exact heq ▸ hperm.map (fun r => (dictGet r "iter").getD Cell.null)
  · rw [tableCol_iterTable results "iter" hc]
    rw [List.pairwise_map]
    have hsorted : List.Pairwise rowLe (List.insertionSort rowLe (results.map flatRow)) :=
      List.sorted_insertionSort rowLe (results.map flatRow)
    apply List.Pairwise.imp_of_mem ?_ hsorted
    intro r1 r2 h1 h2 hle
    have h1' : r1 ∈ results.map flatRow := hperm.mem_iff.mp h1
    have h2' : r2 ∈ results.map flatRow := hperm.mem_iff.mp h2
    rw [List.mem_map] at h1' h2'
    obtain ⟨t1, ht1, hr1⟩ := h1'
    obtain ⟨t2, ht2, hr2⟩ := h2'
    obtain ⟨n1, hn1⟩ := Option.isSome_iff_exists.mp (hiter t1 ht1)
    obtain ⟨n2, hn2⟩ := Option.isSome_iff_exists.mp (hiter t2 ht2)
    obtain ⟨hk1, hc1⟩ := rowIterKey_flatRow t1 n1 hn1
    obtain ⟨hk2, hc2⟩ := rowIterKey_flatRow t2 n2 hn2
    have hle' : n1 ≤ n2 := by
      unfold rowLe at hle
      rw [← hr1, ← hr2, hk1, hk2] at hle
      simpa [optIterLeB] using hle
    refine ⟨n1, n2, ?_, ?_, hle'⟩
    · rw [← hr1, dictGet_flatRow_iter, hc1]
      rfl
    · rw [← hr2, dictGet_flatRow_iter, hc2]
      rfl

/-- Fixture: one task result with iteration `i`, state `st`, one parameter
and one output. -/
def wRes (i : Nat) (st : Option String) : RunStruct Nat :=
  { metadata := { iteration := some i },
    spec := { parameters := [("p", i)] },
    status := { state := st, outputs := [("acc", 10 * i)] } }

theorem results_to_iter_status_table_witness :
    (([wRes 2 (some "completed"), wRes 1 (some "error")] : List (RunStruct Nat)) ≠ []) ∧
    (∀ t ∈ ([wRes 2 (some "completed"), wRes 1 (some "error")] : List (RunStruct Nat)),
      (t.metadata.iteration).isSome) ∧
    ((iterTable [wRes 2 (some "completed"), wRes 1 (some "error")]).length = 3) ∧
    (List.Pairwise cellNumLe
      (tableCol (iterTable [wRes 2 (some "completed"), wRes 1 (some "error")]) "iter")) := by
  have h := results_to_iter_status_table Nat {}
    [wRes 2 (some "completed"), wRes 1 (some "error")] (by decide) (by decide)
  exact ⟨by decide, by decide, h.2.1, h.2.2.2⟩

/-- The finalized child results of a sweep, in generation order: task `k` of
the list is executed and finalized with the clock reading `t0 + k`. -/
def finSeq (τ : Nat → String) (exec : RunStruct α → Option (RunStruct α)) :
    Nat → List (RunStruct α) → List (RunStruct α)
  | _, [] => []
  | t0, task :: rest =>
      finalize (τ t0) ((exec task).getD default) :: finSeq τ exec (t0 + 1) rest

theorem seqResults_map_some (l : List (RunStruct α)) :
    seqResults (l.map some) = some l := by
  induction l with
  | nil => rfl
  | cons r rest ih => simp [seqResults, ih]

theorem finSeq_length (τ : Nat → String) (exec : RunStruct α → Option (RunStruct α))
    (tasks : List (RunStruct α)) :
    ∀ t0, (finSeq τ exec t0 tasks).length = tasks.length := by
  induction tasks with
  | nil => intro t0; rfl
  | cons task rest ih => intro t0; simp [finSeq, ih]

theorem sweepStep_apply (τ : Nat → String) (rundb : Bool)
    (exec : RunStruct α → Option (RunStruct α)) (acc : List (Option (RunStruct α)))
    (st : SysState α) (task : RunStruct α) (r : RunStruct α)
    (hr : exec task = some r) :
    sweepStep τ rundb exec (acc, st) task =
      (acc ++ [some (finalize (τ st.time) r)],
       save_run rundb (finalize (τ st.time) r) { st with time := st.time + 1 }) := by
  unfold sweepStep
  rw [hr]
  rfl

theorem run_many_loop (τ : Nat → String) (rundb : Bool)
    (exec : RunStruct α → Option (RunStruct α)) (tasks : List (RunStruct α)) :
    ∀ (st : SysState α) (acc : List (Option (RunStruct α))),
      (∀ t ∈ tasks, (exec t).isSome) →
      tasks.foldl (sweepStep τ rundb exec) (acc, st)
        = (acc ++ (finSeq τ exec st.time tasks).map some,
           { time := st.time + tasks.length,
             saves := st.saves ++ (if rundb then finSeq τ exec st.time tasks else []) }) := by
  induction tasks with
  | nil =>
      intro st acc _
      simp [finSeq]
  | cons task rest ih =>
      intro st acc hexec
      rw [List.foldl_cons]
      obtain ⟨r, hr⟩ := Option.isSome_iff_exists.mp (hexec task (by simp))
      have hrgetD : (exec task).getD default = r := by rw [hr]; rfl
      rw [sweepStep_apply τ rundb exec acc st task r hr]
      cases rundb with
      | false =>
          have hsv : save_run false (finalize (τ st.time) r)
              { st with time := st.time + 1 }
              = { st with time := st.time + 1 } := rfl
          rw [hsv, ih _ _ (fun t ht => hexec t (by simp [ht]))]
          simp [finSeq, hrgetD, Nat.add_assoc, Nat.add_comm 1 rest.length]
      | true =>
          have hsv : save_run true (finalize (τ st.time) r)
              { st with time := st.time + 1 }
              = { time := st.time + 1, saves := st.saves ++ [finalize (τ st.time) r] } := rfl
          rw [hsv, ih _ _ (fun t ht => hexec t (by simp [ht]))]
          simp [finSeq, hrgetD, Nat.add_assoc, Nat.add_comm 1 rest.length]

theorem run_many_char [Inhabited α] (τ : Nat → String) (rundb : Bool)
    (exec : RunStruct α → Option (RunStruct α)) (s : RunStruct α)
    (g : List (String × List α)) (st : SysState α)
    (hexec : ∀ t ∈ task_gen s g, (exec t).isSome) :
    run_many τ rundb exec s g st =
      (some (results_to_iter_status
        { s with
          status := { state := none, outputs := [], start_time := some (τ st.time),
                      last_update := none, iterations := none },
          spec := { s.spec with hyperparams := g } }
        (finSeq τ exec (st.time + 1) (task_gen s g))),
       { time := st.time + 1 + (task_gen s g).length,
         saves := st.saves ++
           (if rundb then finSeq τ exec (st.time + 1) (task_gen s g) else []) }) := by
  unfold run_many
  dsimp only
  rw [run_many_loop τ rundb exec (task_gen s g) { st with time := st.time + 1 } [] hexec]
  dsimp only
  rw [List.nil_append, seqResults_map_some]

theorem finalize_metadata (now : String) (r : RunStruct α) :
    (finalize now r).metadata = r.metadata := rfl

theorem iterCellOf_finalize (now : String) (r : RunStruct α) :
    iterCellOf (finalize now r) = iterCellOf r := rfl

theorem stateCellOf_finalize (now : String) (r : RunStruct α) :
    stateCellOf (finalize now r) =
      Cell.str (if r.status.state = some "error" then "error" else "completed") := by
  unfold stateCellOf finalize
  cases hs : r.status.state with
  | none => simp
  | some v =>
      by_cases hv : v = "error"
      · subst hv
        simp
      · simp [hv, Option.getD]

theorem finSeq_map_pair (τ : Nat → String) (exec : RunStruct α → Option (RunStruct α))
    (tasks : List (RunStruct α)) :
    ∀ t0, (finSeq τ exec t0 tasks).map (fun r => (iterCellOf r, stateCellOf r)) =
      tasks.map (fun t =>
        (iterCellOf ((exec t).getD default),
         Cell.str (if ((exec t).getD default).status.state = some "error"
           then "error" else "completed"))) := by
  induction tasks with
  | nil => intro t0; rfl
  | cons task rest ih =>
      intro t0
      simp only [finSeq, List.map_cons, ih (t0 + 1), List.cons.injEq, and_true]
      rw [iterCellOf_finalize, stateCellOf_finalize]

theorem finSeq_iteration (τ : Nat → String) (exec : RunStruct α → Option (RunStruct α))
    (tasks : List (RunStruct α))
    (hiter : ∀ t ∈ tasks, ((exec t).getD default).metadata.iteration.isSome) :
    ∀ t0, ∀ r ∈ finSeq τ exec t0 tasks, r.metadata.iteration.isSome := by
  induction tasks with
  | nil => intro t0 r hr; simp [finSeq] at hr
  | cons task rest ih =>
      intro t0 r hr
      simp only [finSeq, List.mem_cons] at hr
      rcases hr with hr | hr
      · subst hr
        rw [finalize_metadata]
        exact hiter task (by simp)
      · exact ih (fun t ht => hiter t (by simp [ht])) (t0 + 1) r hr

/-- C7: a sweep never aborts on a task whose result carries state `error`:
for any executor whose task results are non-falsy, `_run_many` returns an
aggregate (`some`), its iteration table has exactly one data row per
generated task (the errored ones included, collected in generation order),
and the multiset of `(iter, state)` cell pairs of the table equals, task for
task, the finalized per-task pairs — where a task whose raw result carries
state `error` keeps state `error` and every other task shows `completed`, so
no per-task error state is ever downgraded in the final aggregate. -/
theorem run_many_error_propagation (α : Type) [DecidableEq α] [Inhabited α]
    (τ : Nat → String) (rundb : Bool) (exec : RunStruct α → Option (RunStruct α))
    (s : RunStruct α) (g : List (String × List α)) (st : SysState α)
    (hexec : ∀ t ∈ task_gen s g, (exec t).isSome)
    (hiter : ∀ t ∈ task_gen s g, ((exec t).getD default).metadata.iteration.isSome)
    (htasks : task_gen s g ≠ []) :
    ∃ agg : RunStruct α, (run_many τ rundb exec s g st).1 = some agg ∧
      ∃ T : List (List (Cell α)), agg.status.iterations = some T ∧
        T.length = (task_gen s g).length + 1 ∧
        ((tableCol T "iter").zip (tableCol T "state")).Perm
          ((task_gen s g).map (fun t =>
            (iterCellOf ((exec t).getD default),
             Cell.str (if ((exec t).getD default).status.state = some "error"
               then "error" else "completed")))) := by
  rw [run_many_char τ rundb exec s g st hexec]
  refine ⟨_, rfl, iterTable (finSeq τ exec (st.time + 1) (task_gen s g)), rfl, ?_, ?_⟩
  · rw [iterTable_length, finSeq_length]
  · have hlenr : (finSeq τ exec (st.time + 1) (task_gen s g)).length
        = (task_gen s g).length := finSeq_length τ exec (task_gen s g) (st.time + 1)
    have hresne : finSeq τ exec (st.time + 1) (task_gen s g) ≠ [] := by
      intro hnil
      rw [hnil] at hlenr
      exact htasks (List.length_eq_zero.mp hlenr.symm)
    obtain ⟨r0, rs0, hr0⟩ := List.exists_cons_of_ne_nil hresne
    have hci : "iter" ∈ colsOf ((finSeq τ exec (st.time + 1) (task_gen s g)).map flatRow) :=
      mem_colsOf_of_mem _ _ ⟨flatRow r0, by rw [hr0]; simp, iter_mem_flatRow_keys r0⟩
    have hcs : "state" ∈ colsOf ((finSeq τ exec (st.time + 1) (task_gen s g)).map flatRow) :=
      mem_colsOf_of_mem _ _ ⟨flatRow r0, by rw [hr0]; simp, state_mem_flatRow_keys r0⟩
    rw [tableCol_iterTable _ "iter" hci, tableCol_iterTable _ "state" hcs,
      List.zip_map']
    have hperm := (List.perm_insertionSort rowLe
      ((finSeq τ exec (st.time + 1) (task_gen s g)).map flatRow)).map
      (fun r => ((dictGet r "iter").getD Cell.null, (dictGet r "state").getD Cell.null))
    have heq1 : ((finSeq τ exec (st.time + 1) (task_gen s g)).map flatRow).map
        (fun r => ((dictGet r "iter").getD Cell.null, (dictGet r "state").getD Cell.null))
        = (finSeq τ exec (st.time + 1) (task_gen s g)).map
            (fun t => (iterCellOf t, stateCellOf t)) := by
      rw [List.map_map]
      apply List.map_congr_left
      intro t _
      simp [Function.comp, dictGet_flatRow_iter, dictGet_flatRow_state]
    rw [heq1, finSeq_map_pair τ exec (task_gen s g) (st.time + 1)] at hperm
    exact hperm

/-- Fixture: base struct of the 4-task sweep scenario. -/
def wBase : RunStruct Nat :=
  { metadata := { uid := "u" }, spec := { parameters := [("q", 0)] } }

/-- Fixture: grid expanding to 4 tasks. -/
def wGrid : List (String × List Nat) := [("p", [10, 20, 30, 40])]

/-- Fixture: executor whose third task reports state `error` and whose other
tasks report no state. -/
def wExec (t : RunStruct Nat) : Option (RunStruct Nat) :=
  some { t with status := { t.status with
    state := if t.metadata.iteration = some 3 then some "error" else none } }

theorem run_many_error_propagation_witness :
    (∀ t ∈ task_gen wBase wGrid, (wExec t).isSome) ∧
    (∀ t ∈ task_gen wBase wGrid, ((wExec t).getD default).metadata.iteration.isSome) ∧
    (task_gen wBase wGrid ≠ []) ∧
    (tableCol (((run_many (fun _ => "t") true wExec wBase wGrid {}).1.getD
        default).status.iterations.getD []) "iter"
      = [Cell.num 1, Cell.num 2, Cell.num 3, Cell.num 4]) ∧
    (tableCol (((run_many (fun _ => "t") true wExec wBase wGrid {}).1.getD
        default).status.iterations.getD []) "state"
      = [Cell.str "completed", Cell.str "completed", Cell.str "error",
         Cell.str "completed"]) ∧
    (∃ agg : RunStruct Nat,
      (run_many (fun _ => "t") true wExec wBase wGrid {}).1 = some agg ∧
      ∃ T : List (List (Cell Nat)), agg.status.iterations = some T ∧
        T.length = (task_gen wBase wGrid).length + 1 ∧
        ((tableCol T "iter").zip (tableCol T "state")).Perm
          ((task_gen wBase wGrid).map (fun t =>
            (iterCellOf ((wExec t).getD default),
             Cell.str (if ((wExec t).getD default).status.state = some "error"
               then "error" else "completed"))))) :=
  ⟨by decide, by decide, by decide, by decide, by decide,
    run_many_error_propagation Nat (fun _ => "t") true wExec wBase wGrid {}
      (by decide) (by decide) (by decide)⟩

/-- C10: after a sweep with a non-empty (truthy) hyperparameter grid,
`MLRuntime.run` passes the aggregate returned by `_run_many` through
`_post_run` once more.  Because `_run_many` resets the top-level status to
`start_time` only (plus hyperparams and the iteration table), the aggregate
always comes back with `status.state = "completed"` — no matter what states
the child tasks ended in, error included — a `last_update` freshly stamped by
that second `_post_run` call, and the aggregate itself appended to the run
database saves once more, after the per-child saves.  The grid must generate
at least one task: on a grid with an empty candidate list `task_gen` yields
nothing and the real `results_to_iter_status` raises a `KeyError` inside
`sort_values('iter')`, so no aggregate is returned or saved there. -/
theorem runtime_run_aggregate_completed (α : Type) [Inhabited α]
    (τ : Nat → String) (exec : RunStruct α → Option (RunStruct α))
    (s : RunStruct α) (g : List (String × List α)) (st : SysState α)
    (hg : g ≠ []) (htasks : task_gen s g ≠ [])
    (hexec : ∀ t ∈ task_gen s g, (exec t).isSome) :
    ∃ agg : RunStruct α,
      (runtime_run τ true exec s g st).1 = some agg ∧
      agg.status.state = some "completed" ∧
      agg.status.last_update = some (τ (st.time + 1 + (task_gen s g).length)) ∧
      agg.status.start_time = some (τ st.time) ∧
      agg.spec.hyperparams = g ∧
      agg.status.iterations
        = some (iterTable (finSeq τ exec (st.time + 1) (task_gen s g))) ∧
      (runtime_run τ true exec s g st).2.time
        = st.time + 1 + (task_gen s g).length + 1 ∧
      (runtime_run τ true exec s g st).2.saves
        = st.saves ++ finSeq τ exec (st.time + 1) (task_gen s g) ++ [agg] ∧
      (runtime_run τ true exec s g st).2.saves.length
        = st.saves.length + (task_gen s g).length + 1 := by
  cases g with
  | nil => exact absurd rfl hg
  | cons p g0 =>
      unfold runtime_run
      rw [run_many_char τ true exec s (p :: g0) st hexec]
      dsimp only [post_run]
      refine ⟨_, rfl, ?_, rfl, rfl, rfl, rfl, rfl, ?_, ?_⟩
      · rfl
      · simp [save_run]
      · simp [save_run, finSeq_length]
        omega

/-- Fixture: executor whose every task result carries state `error`. -/
def wExecErr (t : RunStruct Nat) : Option (RunStruct Nat) :=
  some { t with status := { t.status with state := some "error" } }

theorem runtime_run_aggregate_completed_witness :
    (wGrid ≠ []) ∧
    (task_gen wBase wGrid ≠ []) ∧
    (∀ t ∈ task_gen wBase wGrid, (wExecErr t).isSome) ∧
    ((runtime_run (fun _ => "t") true wExecErr wBase wGrid {}).1.map
        (fun a => a.status.state) = some (some "completed")) ∧
    (∃ agg : RunStruct Nat,
      (runtime_run (fun _ => "t") true wExecErr wBase wGrid {}).1 = some agg ∧
      agg.status.state = some "completed" ∧
      agg.status.last_update
        = some ((fun _ => "t") (({} : SysState Nat).time + 1 +
            (task_gen wBase wGrid).length)) ∧
      agg.status.start_time = some ((fun _ => "t") ({} : SysState Nat).time) ∧
      agg.spec.hyperparams = wGrid ∧
      agg.status.iterations = some (iterTable
        (finSeq (fun _ => "t") wExecErr (({} : SysState Nat).time + 1)
          (task_gen wBase wGrid))) ∧
      (runtime_run (fun _ => "t") true wExecErr wBase wGrid {}).2.time
        = ({} : SysState Nat).time + 1 + (task_gen wBase wGrid).length + 1 ∧
      (runtime_run (fun _ => "t") true wExecErr wBase wGrid {}).2.saves
        = ({} : SysState Nat).saves ++
            finSeq (fun _ => "t") wExecErr (({} : SysState Nat).time + 1)
              (task_gen wBase wGrid) ++ [agg] ∧
      (runtime_run (fun _ => "t") true wExecErr wBase wGrid {}).2.saves.length
        = ({} : SysState Nat).saves.length + (task_gen wBase wGrid).length + 1) :=
  ⟨by decide, by decide, by decide, by decide,
    runtime_run_aggregate_completed Nat (fun _ => "t") wExecErr wBase wGrid {}
      (by decide) (by decide) (by decide)⟩
